import Mathlib

/-!
Verification of the text layout / line-breaking engine of
`src/core/embed/rust/src/ui/component/text/layout.rs`.

The source is shallowly embedded: UTF-8 strings become `List Char` with byte
positions computed from `Char.utf8Size`, Rust `i16` arithmetic becomes `Int`
(Rust debug builds abort on overflow, so widths and coordinates are modelled
as unbounded integers), and `usize` byte counts become `Nat`.  Rust's `/` on
`i16` truncates towards zero, which is `Int.tdiv`.
-/

namespace Layout

/-- Two-dimensional offset (`ui::geometry::Offset`), restricted to the two
integer fields used by the layout engine. -/
structure Offset where
  x : Int
  y : Int
deriving DecidableEq, Repr

/-- Two-dimensional point (`ui::geometry::Point`). -/
structure Point where
  x : Int
  y : Int
deriving DecidableEq, Repr

/-- Bounding rectangle (`ui::geometry::Rect`), with top-left `(x0, y0)` and
bottom-right `(x1, y1)`. -/
structure Rect where
  x0 : Int
  y0 : Int
  x1 : Int
  y1 : Int
deriving DecidableEq, Repr

/-- Modelled from the spec: the glyph-metrics collaborator (`GlyphMetrics`
trait from `super::iter` together with `Font::text_height`, both outside the
given sources).  It supplies a per-character advance width, a fixed line
height, and the vertical extent of one line of text. -/
structure GlyphMetrics where
  char_width : Char → Int
  line_height : Int
  text_height : Int

/-- Modelled from the spec: `text_width` of the metrics collaborator is the
sum of the per-character widths of the string (spec section 6). -/
def text_width (font : GlyphMetrics) (text : List Char) : Int :=
  (text.map font.char_width).sum

/-- `LineBreaking` enum. -/
inductive LineBreaking where
  | BreakAtWhitespace
  | BreakWordsAndInsertHyphen
  | BreakWordsNoHyphen
deriving DecidableEq, Repr

/-- `PageBreaking` enum. -/
inductive PageBreaking where
  | Cut
  | CutAndInsertEllipsis
deriving DecidableEq, Repr

/-- `Alignment` enum from `ui::geometry`. -/
inductive Alignment where
  | Start
  | Center
  | End
deriving DecidableEq, Repr

/-- `TextStyle`: the fields that participate in layout decisions, plus
`line_alignment` (used only by the rendering sink).  Colors and icon bitmaps
are omitted; they are consumed exclusively by drawing primitives and never
influence any layout computation. -/
structure TextStyle where
  text_font : GlyphMetrics
  line_breaking : LineBreaking
  page_breaking : PageBreaking
  line_alignment : Alignment

/-- `TextLayout`: bounds, paddings, style and block alignment. -/
structure TextLayout where
  bounds : Rect
  padding_top : Int
  padding_bottom : Int
  style : TextStyle
  align : Alignment

/-- `Span`, the result of fitting one line (`struct Span`). -/
structure Span where
  length : Nat
  skip_next_chars : Nat
  advance : Offset
  insert_hyphen_before_line_break : Bool
deriving DecidableEq, Repr

/-- `is_whitespace` from `Span::fit_horizontally`: space, LF or CR. -/
def is_whitespace (c : Char) : Bool :=
  c = ' ' || c = '\n' || c = '\r'

/-- The mutable scan state of the loop inside `Span::fit_horizontally`:
current byte index `i`, accumulated `span_width`, the
`found_any_whitespace` flag and the candidate break span `line`. -/
structure FitState where
  i : Nat
  width : Int
  found_any_whitespace : Bool
  line : Span
deriving DecidableEq, Repr

/-- The parameters of the scan loop of `Span::fit_horizontally` that stay
fixed during the scan: metrics, width budget, breaking policy, the
`complete_word_end_width` (`cwe`), the `incomplete_word_end_width` (`iwe`)
and the final value of `use_hyphens`. -/
structure FitParams where
  font : GlyphMetrics
  max_width : Int
  breaking : LineBreaking
  cwe : Int
  iwe : Int
  use_hyphens : Bool

/-- One-line-fitting scan loop of `Span::fit_horizontally`, over the list of
remaining characters.  `Sum.inl sp` is an early `return sp` from the Rust
loop; `Sum.inr st` means the loop ran to completion with final state `st`
(the function then builds the whole-text span).  The "peek" for the byte
offset just after the current character is `st.i + Char.utf8Size c`. -/
def fitLoop (p : FitParams) : List Char → FitState → Span ⊕ FitState
  | [], st => Sum.inr st
  | c :: cs, st =>
    let w := p.font.char_width c
    if is_whitespace c ∧ st.width + p.cwe ≤ p.max_width then
      -- Break before the whitespace, without hyphen.
      let brk : Span :=
        { length := st.i
          skip_next_chars := 1
          advance := { x := st.width
                       y := if c = '\r' then Int.tdiv p.font.line_height 2
                            else st.line.advance.y }
          insert_hyphen_before_line_break := false }
      if c = '\n' ∨ c = '\r' then
        -- End of line, break immediately.
        Sum.inl brk
      else
        fitLoop p cs
          { i := st.i + Char.utf8Size c
            width := st.width + w
            found_any_whitespace := true
            line := brk }
    else if p.max_width < st.width + w then
      -- Cannot fit on this line. Return the last breakpoint.
      Sum.inl st.line
    else
      let have_space_for_break := st.width + w + p.iwe ≤ p.max_width
      let can_break_word :=
        ¬ p.breaking = LineBreaking.BreakAtWhitespace ∨ st.found_any_whitespace = false
      let line' : Span :=
        if have_space_for_break ∧ can_break_word then
          -- Break after this character, append hyphen.
          { length := st.i + Char.utf8Size c
            skip_next_chars := 0
            advance := { x := st.width + w, y := st.line.advance.y }
            insert_hyphen_before_line_break := p.use_hyphens }
        else st.line
      fitLoop p cs
        { i := st.i + Char.utf8Size c
          width := st.width + w
          found_any_whitespace := st.found_any_whitespace
          line := line' }

/-- Total byte length of a character list under UTF-8. -/
def byteLen (cs : List Char) : Nat :=
  (cs.map Char.utf8Size).sum

/-- The scan state after a space within budget: break recorded before the
space, whitespace found. -/
def wsGoState (p : FitParams) (c : Char) (st : FitState) : FitState :=
  { i := st.i + Char.utf8Size c
    width := st.width + p.font.char_width c
    found_any_whitespace := true
    line := { length := st.i, skip_next_chars := 1
              advance := { x := st.width, y := st.line.advance.y }
              insert_hyphen_before_line_break := false } }

/-- The scan state after a fitting non-break character: a mid-word break
candidate possibly recorded. -/
def goState (p : FitParams) (c : Char) (st : FitState) : FitState :=
  { i := st.i + Char.utf8Size c
    width := st.width + p.font.char_width c
    found_any_whitespace := st.found_any_whitespace
    line :=
      if st.width + p.font.char_width c + p.iwe ≤ p.max_width ∧
          (¬ p.breaking = LineBreaking.BreakAtWhitespace ∨
            st.found_any_whitespace = false) then
        { length := st.i + Char.utf8Size c, skip_next_chars := 0
          advance := { x := st.width + p.font.char_width c, y := st.line.advance.y }
          insert_hyphen_before_line_break := p.use_hyphens }
      else st.line }

/-- The scan parameters `Span::fit_horizontally` computes before its loop. -/
def mkFitParams (text : List Char) (max_width : Int) (font : GlyphMetrics)
    (breaking : LineBreaking) (line_ending_space : Option Int) : FitParams :=
  let fits_completely := text_width font text ≤ max_width
  let uh0 := ¬ breaking = LineBreaking.BreakWordsNoHyphen
  let iwe_uh : Int × Bool :=
    if fits_completely then (0, false)
    else
      match line_ending_space with
      | some ending => (ending, false)
      | none => if uh0 then (font.char_width '-', true) else (0, false)
  let cwe : Int :=
    if fits_completely then 0 else line_ending_space.getD 0
  { font := font, max_width := max_width, breaking := breaking
    cwe := cwe, iwe := iwe_uh.1, use_hyphens := iwe_uh.2 }

/-- Initial value of the candidate span `line`: zero length, zero width,
full line break. -/
def initLine (font : GlyphMetrics) : Span :=
  { length := 0
    skip_next_chars := 0
    advance := { x := 0, y := font.line_height }
    insert_hyphen_before_line_break := false }

/-- Initial scan state. -/
def initFitState (font : GlyphMetrics) : FitState :=
  { i := 0, width := 0, found_any_whitespace := false, line := initLine font }

/-- `Span::fit_horizontally`. -/
def fit_horizontally (text : List Char) (max_width : Int) (font : GlyphMetrics)
    (breaking : LineBreaking) (line_ending_space : Option Int) : Span :=
  match fitLoop (mkFitParams text max_width font breaking line_ending_space)
      text (initFitState font) with
  | Sum.inl sp => sp
  | Sum.inr st =>
      -- The whole text is fitting on the current line.
      { length := st.i
        skip_next_chars := 0
        advance := { x := st.width, y := 0 }
        insert_hyphen_before_line_break := false }

/-- The fixed-width test font of the source's unit tests: every character one
unit wide, line height one unit (plus a text height for the driver). -/
def fixedFont : GlyphMetrics :=
  { char_width := fun _ => 1, line_height := 1, text_height := 1 }

/-- Take the first `n` bytes of a character list (assuming `n` lands on a
character boundary; `&text[..n]`). -/
def byteTake : Nat → List Char → List Char
  | _, [] => []
  | n, c :: cs => if Char.utf8Size c ≤ n then c :: byteTake (n - Char.utf8Size c) cs else []

/-- Drop the first `n` bytes of a character list (assuming `n` lands on a
character boundary; `&text[n..]`). -/
def byteDrop : Nat → List Char → List Char
  | _, [] => []
  | n, c :: cs => if Char.utf8Size c ≤ n then byteDrop (n - Char.utf8Size c) cs else c :: cs

/-- `n` is a UTF-8 character boundary of `text` (`str::is_char_boundary`). -/
def IsBoundary (text : List Char) (n : Nat) : Prop :=
  ∃ k, n = byteLen (text.take k)

/-- The events reported to a `LayoutSink` by `TextLayout::layout_text`, in
order.  The continuation marker carries no payload here; its reported width
is a parameter of the driver (every sink in the source reports the width of
`PREV_PAGE_ELLIPSIS`). -/
inductive Event where
  | text (cursor : Point) (s : List Char)
  | hyphen (cursor : Point)
  | ellipsis (cursor : Point)
  | prevPageEllipsis
  | lineBreak (cursor : Point)
  | outOfBounds
deriving DecidableEq, Repr

/-- `LayoutFit`. -/
inductive LayoutFit where
  | Fitting (processed_chars : Nat) (height : Int)
  | OutOfBounds (processed_chars : Nat) (height : Int)
deriving DecidableEq, Repr

/-- The outcome of one driving pass: the returned `LayoutFit`, the final
cursor, and the emitted event stream.  The remaining fields record data the
Rust code holds in locals when it returns, exposed for specification:
`pieces` lists, per loop iteration, the substring laid out as a span and the
skipped bytes following it; `remaining` is the unconsumed suffix;
`lastHyphen` is the `insert_hyphen_before_line_break` flag of the final span
when the pass ends out-of-bounds inside the main loop. -/
structure LoopResult where
  fit : LayoutFit
  endCursor : Point
  events : List Event
  pieces : List (List Char × List Char)
  remaining : List Char
  lastHyphen : Bool
deriving DecidableEq, Repr

/-- `TextLayout::bottom_y`: `(bounds.y1 - padding_bottom).max(bounds.y0)`. -/
def bottom_y (l : TextLayout) : Int :=
  max (l.bounds.y1 - l.padding_bottom) l.bounds.y0

/-- `TextLayout::layout_height`. -/
def layout_height (l : TextLayout) (init_cursor end_cursor : Point) : Int :=
  l.padding_top + l.style.text_font.text_height + (end_cursor.y - init_cursor.y)
    + l.padding_bottom

/-- `PREV_PAGE_ELLIPSIS = ".."`. -/
def prevPageEllipsisText : List Char := ['.', '.']

/-- The continuation-marker width every sink in the source reports:
`text_width(PREV_PAGE_ELLIPSIS)`. -/
def prev_page_ellipsis_width (font : GlyphMetrics) : Int :=
  text_width font prevPageEllipsisText

/-- The reserved line-ending space of one driver iteration: on the last line
that can fit vertically, the width of the continuation marker is reserved. -/
def lineEndingSpace (l : TextLayout) (cursor : Point) : Option Int :=
  if bottom_y l < cursor.y + l.style.text_font.line_height
  then some (text_width l.style.text_font prevPageEllipsisText) else none

/-- The span one driver iteration fits: the remaining text against the
remaining horizontal width `bounds.x1 - cursor.x`. -/
def iterSpan (l : TextLayout) (cursor : Point) (remaining : List Char) : Span :=
  fit_horizontally remaining (l.bounds.x1 - cursor.x) l.style.text_font
    l.style.line_breaking (lineEndingSpace l cursor)

/-- The horizontal block-alignment shift applied before emitting a span. -/
def alignShift (a : Alignment) (remaining_width advance_x : Int) : Int :=
  match a with
  | Alignment.Start => 0
  | Alignment.Center => Int.tdiv (remaining_width - advance_x) 2
  | Alignment.End => remaining_width - advance_x

/-- The main loop of `TextLayout::layout_text` (lines 200-281 of the source),
with an explicit fuel bound; `none` means the fuel ran out before the loop
did.  `totalLen` is the byte length of the whole input `text`, and
`init_cursor` the cursor at entry, both needed for the returned
`LayoutFit`. -/
def layoutIter (l : TextLayout) (totalLen : Nat) (init_cursor : Point)
    (recur : List Char → Point → Option LoopResult)
    (remaining : List Char) (cursor : Point) : Option LoopResult :=
  let span := iterSpan l cursor remaining
  let cursor1 : Point :=
    { x := cursor.x + alignShift l.align (l.bounds.x1 - cursor.x) span.advance.x
      y := cursor.y }
  let text_to_display := byteTake span.length remaining
  let textEvents :=
    if 0 < span.length then [Event.text cursor1 text_to_display] else []
  let remaining' := byteDrop (span.length + span.skip_next_chars) remaining
  let piece := (text_to_display, byteTake span.skip_next_chars (byteDrop span.length remaining))
  let cursor2 : Point := { x := cursor1.x + span.advance.x, y := cursor1.y }
  if 0 < span.advance.y then
    let hyphenEvents :=
      if span.insert_hyphen_before_line_break then [Event.hyphen cursor2] else []
    if bottom_y l < cursor2.y + span.advance.y then
      let ellipsisEvents :=
        if remaining' ≠ [] ∧
            l.style.page_breaking = PageBreaking.CutAndInsertEllipsis ∧
            span.insert_hyphen_before_line_break = false
        then [Event.ellipsis cursor2] else []
      some { fit := LayoutFit.OutOfBounds (totalLen - byteLen remaining')
               (layout_height l init_cursor cursor2)
             endCursor := cursor2
             events := textEvents ++ hyphenEvents ++ ellipsisEvents ++ [Event.outOfBounds]
             pieces := [piece], remaining := remaining'
             lastHyphen := span.insert_hyphen_before_line_break }
    else
      let cursor3 : Point := { x := l.bounds.x0, y := cursor2.y + span.advance.y }
      match recur remaining' cursor3 with
      | none => none
      | some r =>
          some { r with
                 events := textEvents ++ hyphenEvents ++ Event.lineBreak cursor3 :: r.events
                 pieces := piece :: r.pieces }
  else
    match recur remaining' cursor2 with
    | none => none
    | some r =>
        some { r with events := textEvents ++ r.events, pieces := piece :: r.pieces }

def layoutLoop (l : TextLayout) (totalLen : Nat) (init_cursor : Point) :
    Nat → List Char → Point → Option LoopResult
  | _, [], cursor =>
      some { fit := LayoutFit.Fitting totalLen (layout_height l init_cursor cursor)
             endCursor := cursor, events := [], pieces := [], remaining := []
             lastHyphen := false }
  | 0, _ :: _, _ => none
  | fuel + 1, c :: rest, cursor =>
      layoutIter l totalLen init_cursor (layoutLoop l totalLen init_cursor fuel)
        (c :: rest) cursor

/-- `TextLayout::layout_text`.  `prevPageWidth` is the width the sink reports
for the continuation marker (every sink in the source reports
`text_width(PREV_PAGE_ELLIPSIS)`, but the driver only uses the returned
number, so it is kept as a parameter). -/
def layout_text (l : TextLayout) (text : List Char) (cursor : Point)
    (prevPageWidth : Int) (continues_from_prev_page : Bool) (fuel : Nat) :
    Option LoopResult :=
  if bottom_y l < cursor.y then
    some { fit := LayoutFit.OutOfBounds 0 0, endCursor := cursor
           events := [Event.outOfBounds], pieces := [], remaining := text
           lastHyphen := false }
  else
    let cursor1 : Point :=
      if continues_from_prev_page then { x := cursor.x + prevPageWidth, y := cursor.y }
      else cursor
    let preEvents := if continues_from_prev_page then [Event.prevPageEllipsis] else []
    match layoutLoop l (byteLen text) cursor fuel text cursor1 with
    | none => none
    | some r => some { r with events := preEvents ++ r.events }

/-- `TextLayout::initial_cursor`. -/
def initial_cursor (l : TextLayout) : Point :=
  { x := l.bounds.x0
    y := l.bounds.y0 + l.style.text_font.text_height + l.padding_top }

/-- `TextLayout::fit_text`: drive with the no-op sink from the initial
cursor.  `TextNoOp` reports `text_width(PREV_PAGE_ELLIPSIS)` for the
continuation marker. -/
def fit_text (l : TextLayout) (text : List Char) (continues : Bool) (fuel : Nat) :
    Option LoopResult :=
  layout_text l text (initial_cursor l)
    (prev_page_ellipsis_width l.style.text_font) continues fuel

/-- A convenient standard layout for concrete tests: fixed font, bounds
`[0, x1] × [0, y1]`, no paddings. -/
def mkLayout (x1 y1 : Int) (breaking : LineBreaking) (pb : PageBreaking)
    (align : Alignment) : TextLayout :=
  { bounds := { x0 := 0, y0 := 0, x1 := x1, y1 := y1 }
    padding_top := 0
    padding_bottom := 0
    style := { text_font := fixedFont, line_breaking := breaking
               page_breaking := pb, line_alignment := Alignment.Start }
    align := align }

/-- A fixed-width test font with line height 2. -/
def fixedFont2 : GlyphMetrics :=
  { char_width := fun _ => 1, line_height := 2, text_height := 1 }

/-- A standard test layout over `fixedFont2`. -/
def mkLayout2 (x1 y1 : Int) (align : Alignment) : TextLayout :=
  { bounds := { x0 := 0, y0 := 0, x1 := x1, y1 := y1 }
    padding_top := 0
    padding_bottom := 0
    style := { text_font := fixedFont2
               line_breaking := LineBreaking.BreakAtWhitespace
               page_breaking := PageBreaking.CutAndInsertEllipsis
               line_alignment := Alignment.Start }
    align := align }

/-- The processed-byte count carried by either variant of `LayoutFit`. -/
def LayoutFit.processed : LayoutFit → Nat
  | LayoutFit.Fitting p _ => p
  | LayoutFit.OutOfBounds p _ => p

/-- The height carried by either variant of `LayoutFit`
(`LayoutFit::height`). -/
def LayoutFit.height : LayoutFit → Int
  | LayoutFit.Fitting _ h => h
  | LayoutFit.OutOfBounds _ h => h

/-- Whether a `LayoutFit` is the `Fitting` variant. -/
def LayoutFit.isFitting : LayoutFit → Prop
  | LayoutFit.Fitting _ _ => True
  | LayoutFit.OutOfBounds _ _ => False

/-- Concatenation of the per-span consumed pieces (span text plus skipped
bytes) of a driving pass. -/
def piecesText (pieces : List (List Char × List Char)) : List Char :=
  (pieces.map fun pc => pc.1 ++ pc.2).flatten

/-!  Sanity checks: the unit tests of the source module. -/

example :
    fit_horizontally ['h','e','l','l','o',' ','w','o','r','l','d'] 5 fixedFont
      LineBreaking.BreakAtWhitespace none =
    { length := 5, skip_next_chars := 1, advance := { x := 5, y := 1 }
      insert_hyphen_before_line_break := false } := by decide

example :
    fit_horizontally ['h','e','l','l','o'] 5 fixedFont
      LineBreaking.BreakAtWhitespace none =
    { length := 5, skip_next_chars := 0, advance := { x := 5, y := 0 }
      insert_hyphen_before_line_break := false } := by decide

example :
    fit_horizontally ['e','s','t','a','b','l','i','s','h','m','e','n','t','!'] 5
      fixedFont LineBreaking.BreakAtWhitespace none =
    { length := 4, skip_next_chars := 0, advance := { x := 4, y := 1 }
      insert_hyphen_before_line_break := true } := by decide

example :
    fit_horizontally ['+','ě','š','č','ř','ž','ý','á','í','é'] 5
      fixedFont LineBreaking.BreakAtWhitespace none =
    { length := 7, skip_next_chars := 0, advance := { x := 4, y := 1 }
      insert_hyphen_before_line_break := true } := by decide

/-!  Byte-length and boundary lemmas. -/

theorem byteLen_append (a b : List Char) :
    byteLen (a ++ b) = byteLen a + byteLen b := by
  simp [byteLen]

theorem byteLen_cons (c : Char) (cs : List Char) :
    byteLen (c :: cs) = Char.utf8Size c + byteLen cs := by
  simp [byteLen]

theorem byteLen_pos_of_ne_nil {u : List Char} (h : u ≠ []) : 0 < byteLen u := by
  match u, h with
  | c :: cs, _ =>
    have := Char.utf8Size_pos c
    simp [byteLen_cons]
    omega

theorem byteTake_append (a b : List Char) :
    byteTake (byteLen a) (a ++ b) = a := by
  induction a with
  | nil =>
    cases b with
    | nil => rfl
    | cons c cs =>
      have hc := Char.utf8Size_pos c
      simp only [List.nil_append, byteTake, byteLen, List.map_nil, List.sum_nil]
      rw [if_neg (by omega)]
  | cons c cs ih =>
    simp only [List.cons_append, byteTake, byteLen_cons]
    rw [if_pos (Nat.le_add_right _ _), Nat.add_sub_cancel_left]
    exact congrArg (c :: ·) ih

theorem byteDrop_append (a b : List Char) :
    byteDrop (byteLen a) (a ++ b) = b := by
  induction a with
  | nil =>
    cases b with
    | nil => rfl
    | cons c cs =>
      have hc := Char.utf8Size_pos c
      simp only [List.nil_append, byteDrop, byteLen, List.map_nil, List.sum_nil]
      rw [if_neg (by omega)]
  | cons c cs ih =>
    simp only [List.cons_append, byteDrop, byteLen_cons]
    rw [if_pos (Nat.le_add_right _ _), Nat.add_sub_cancel_left]
    exact ih

theorem byteDrop_zero (u : List Char) : byteDrop 0 u = u := by
  cases u with
  | nil => rfl
  | cons c cs =>
    have hc := Char.utf8Size_pos c
    simp [byteDrop]
    omega

theorem byteDrop_byteLen (u : List Char) : byteDrop (byteLen u) u = [] := by
  have := byteDrop_append u []
  simpa using this

theorem byteLen_take_le (u : List Char) (k : Nat) :
    byteLen (u.take k) ≤ byteLen u := by
  conv_rhs => rw [← List.take_append_drop k u]
  rw [byteLen_append]
  omega

theorem isBoundary_le {u : List Char} {n : Nat} (h : IsBoundary u n) :
    n ≤ byteLen u := by
  obtain ⟨k, hk⟩ := h
  exact hk ▸ byteLen_take_le u k

theorem isBoundary_zero (u : List Char) : IsBoundary u 0 :=
  ⟨0, by simp [byteLen]⟩

theorem isBoundary_byteLen (u : List Char) : IsBoundary u (byteLen u) :=
  ⟨u.length, by simp⟩

theorem isBoundary_exists_split {u : List Char} {n : Nat} (h : IsBoundary u n) :
    ∃ a b, u = a ++ b ∧ byteLen a = n := by
  obtain ⟨k, hk⟩ := h
  exact ⟨u.take k, u.drop k, (List.take_append_drop k u).symm, hk.symm⟩

theorem isBoundary_append_right {a b : List Char} {m : Nat}
    (h : IsBoundary (a ++ b) (byteLen a + m)) : IsBoundary b m := by
  obtain ⟨k, hk⟩ := h
  rw [List.take_append_eq_append_take, byteLen_append] at hk
  have h1 : byteLen (a.take k) ≤ byteLen a := byteLen_take_le a k
  rcases le_or_lt k a.length with hka | hka
  · have hnil : List.take (k - a.length) b = [] := by
      rw [Nat.sub_eq_zero_of_le hka]; rfl
    rw [hnil] at hk
    have hz : byteLen ([] : List Char) = 0 := rfl
    rw [hz] at hk
    have hm : m = 0 := by omega
    exact hm ▸ isBoundary_zero b
  · have : a.take k = a := List.take_of_length_le (Nat.le_of_lt hka)
    rw [this] at hk
    exact ⟨k - a.length, by omega⟩

/-- Splitting a text at two nested boundaries: the taken prefix, the skipped
middle and the dropped suffix reassemble the text exactly. -/
theorem byte_split {u : List Char} {n m : Nat}
    (h1 : IsBoundary u n) (h2 : IsBoundary u (n + m)) :
    byteTake n u ++ byteTake m (byteDrop n u) ++ byteDrop (n + m) u = u ∧
    byteLen (byteDrop (n + m) u) = byteLen u - (n + m) ∧
    n + m ≤ byteLen u := by
  obtain ⟨a, b, rfl, hn⟩ := isBoundary_exists_split h1
  subst hn
  have h2' : IsBoundary b m := isBoundary_append_right h2
  obtain ⟨b1, b2, rfl, hm⟩ := isBoundary_exists_split h2'
  subst hm
  have e1 : byteTake (byteLen a) (a ++ (b1 ++ b2)) = a := byteTake_append _ _
  have e2 : byteDrop (byteLen a) (a ++ (b1 ++ b2)) = b1 ++ b2 := byteDrop_append _ _
  have e3 : byteTake (byteLen b1) (b1 ++ b2) = b1 := byteTake_append _ _
  have e4 : byteDrop (byteLen a + byteLen b1) (a ++ (b1 ++ b2)) = b2 := by
    have := byteDrop_append (a ++ b1) b2
    rw [byteLen_append] at this
    simpa using this
  refine ⟨?_, ?_, ?_⟩
  · rw [e1, e2, e3, e4, List.append_assoc]
  · rw [e4, byteLen_append, byteLen_append]
    omega
  · rw [byteLen_append, byteLen_append]
    omega

/-!  Scan-loop lemmas for `Span::fit_horizontally`. -/

theorem text_width_cons (font : GlyphMetrics) (c : Char) (cs : List Char) :
    text_width font (c :: cs) = font.char_width c + text_width font cs := by
  simp [text_width]

theorem text_width_append (font : GlyphMetrics) (a b : List Char) :
    text_width font (a ++ b) = text_width font a + text_width font b := by
  simp [text_width]

theorem utf8Size_of_whitespace {c : Char} (h : is_whitespace c = true) :
    Char.utf8Size c = 1 := by
  simp only [is_whitespace, Bool.or_eq_true, decide_eq_true_eq] at h
  rcases h with (h | h) | h <;> subst h <;> decide

/-- The scan over `cs ++ ds` either returns early inside `cs` or finishes
`cs` and scans `ds` from the intermediate state. -/
theorem fitLoop_append (p : FitParams) :
    ∀ (cs ds : List Char) (st : FitState),
      fitLoop p (cs ++ ds) st =
        match fitLoop p cs st with
        | Sum.inl sp => Sum.inl sp
        | Sum.inr st' => fitLoop p ds st' := by
  intro cs
  induction cs with
  | nil => intro ds st; rfl
  | cons c cs ih =>
    intro ds st
    simp only [List.cons_append, fitLoop]
    split_ifs <;> simp [ih]

/-- Step equation: a whitespace character within budget that is a LF or CR
returns the break before it at once. -/
theorem fitLoop_cons_ws_ret (p : FitParams) (c : Char) (cs : List Char)
    (st : FitState)
    (h1 : is_whitespace c = true ∧ st.width + p.cwe ≤ p.max_width)
    (h2 : c = '\n' ∨ c = '\r') :
    fitLoop p (c :: cs) st =
      Sum.inl { length := st.i, skip_next_chars := 1
                advance := { x := st.width
                             y := if c = '\r' then Int.tdiv p.font.line_height 2
                                  else st.line.advance.y }
                insert_hyphen_before_line_break := false } := by
  simp only [fitLoop]
  rw [if_pos h1, if_pos h2]

/-- Step equation: a space within budget records the break before it and
continues scanning. -/
theorem fitLoop_cons_ws_go (p : FitParams) (c : Char) (cs : List Char)
    (st : FitState)
    (h1 : is_whitespace c = true ∧ st.width + p.cwe ≤ p.max_width)
    (h2 : ¬ (c = '\n' ∨ c = '\r')) :
    fitLoop p (c :: cs) st =
      fitLoop p cs
        { i := st.i + Char.utf8Size c
          width := st.width + p.font.char_width c
          found_any_whitespace := true
          line := { length := st.i, skip_next_chars := 1
                    advance := { x := st.width, y := st.line.advance.y }
                    insert_hyphen_before_line_break := false } } := by
  have hcr : ¬ c = '\r' := fun hc => h2 (Or.inr hc)
  simp only [fitLoop]
  rw [if_pos h1, if_neg h2, if_neg hcr]

/-- Step equation: a character that does not fit returns the stored
candidate break. -/
theorem fitLoop_cons_over (p : FitParams) (c : Char) (cs : List Char)
    (st : FitState)
    (h1 : ¬ (is_whitespace c = true ∧ st.width + p.cwe ≤ p.max_width))
    (h3 : p.max_width < st.width + p.font.char_width c) :
    fitLoop p (c :: cs) st = Sum.inl st.line := by
  simp only [fitLoop]
  rw [if_neg h1, if_pos h3]

/-- Step equation: a fitting non-break character possibly records a
mid-word break candidate and continues scanning. -/
theorem fitLoop_cons_go (p : FitParams) (c : Char) (cs : List Char)
    (st : FitState)
    (h1 : ¬ (is_whitespace c = true ∧ st.width + p.cwe ≤ p.max_width))
    (h3 : ¬ p.max_width < st.width + p.font.char_width c) :
    fitLoop p (c :: cs) st =
      fitLoop p cs
        { i := st.i + Char.utf8Size c
          width := st.width + p.font.char_width c
          found_any_whitespace := st.found_any_whitespace
          line :=
            if st.width + p.font.char_width c + p.iwe ≤ p.max_width ∧
                (¬ p.breaking = LineBreaking.BreakAtWhitespace ∨
                  st.found_any_whitespace = false) then
              { length := st.i + Char.utf8Size c, skip_next_chars := 0
                advance := { x := st.width + p.font.char_width c, y := st.line.advance.y }
                insert_hyphen_before_line_break := p.use_hyphens }
            else st.line } := by
  simp only [fitLoop]
  rw [if_neg h1, if_neg h3]

/-- `fitLoop_cons_ws_go` phrased with the named successor state. -/
theorem fitLoop_cons_ws_goS (p : FitParams) (c : Char) (cs : List Char)
    (st : FitState)
    (h1 : is_whitespace c = true ∧ st.width + p.cwe ≤ p.max_width)
    (h2 : ¬ (c = '\n' ∨ c = '\r')) :
    fitLoop p (c :: cs) st = fitLoop p cs (wsGoState p c st) :=
  fitLoop_cons_ws_go p c cs st h1 h2

/-- `fitLoop_cons_go` phrased with the named successor state. -/
theorem fitLoop_cons_goS (p : FitParams) (c : Char) (cs : List Char)
    (st : FitState)
    (h1 : ¬ (is_whitespace c = true ∧ st.width + p.cwe ≤ p.max_width))
    (h3 : ¬ p.max_width < st.width + p.font.char_width c) :
    fitLoop p (c :: cs) st = fitLoop p cs (goState p c st) :=
  fitLoop_cons_go p c cs st h1 h3

/-- A completed scan advanced the byte index by the byte length of the
scanned characters, accumulated exactly their total width, and never touched
the vertical advance of the candidate break. -/
theorem fitLoop_inr (p : FitParams) :
    ∀ (cs : List Char) (st st' : FitState),
      fitLoop p cs st = Sum.inr st' →
      st'.i = st.i + byteLen cs ∧
      st'.width = st.width + text_width p.font cs ∧
      st'.line.advance.y = st.line.advance.y := by
  intro cs
  induction cs with
  | nil =>
    intro st st' h
    simp only [fitLoop, Sum.inr.injEq] at h
    subst h
    simp [byteLen, text_width]
  | cons c cs ih =>
    intro st st' h
    by_cases h1 : is_whitespace c = true ∧ st.width + p.cwe ≤ p.max_width
    · by_cases h2 : c = '\n' ∨ c = '\r'
      · rw [fitLoop_cons_ws_ret p c cs st h1 h2] at h
        exact absurd h (by simp)
      · rw [fitLoop_cons_ws_go p c cs st h1 h2] at h
        obtain ⟨hi, hw, hy⟩ := ih _ _ h
        refine ⟨?_, ?_, ?_⟩
        · rw [hi, byteLen_cons]; dsimp only; omega
        · rw [hw, text_width_cons]; dsimp only; ring
        · simpa using hy
    · by_cases h3 : p.max_width < st.width + p.font.char_width c
      · rw [fitLoop_cons_over p c cs st h1 h3] at h
        exact absurd h (by simp)
      · rw [fitLoop_cons_go p c cs st h1 h3] at h
        obtain ⟨hi, hw, hy⟩ := ih _ _ h
        refine ⟨?_, ?_, ?_⟩
        · rw [hi, byteLen_cons]; dsimp only; omega
        · rw [hw, text_width_cons]; dsimp only; ring
        · rw [hy]
          split_ifs <;> rfl

/-- An early return is either a break whose vertical advance is the stored
candidate's (always the full line height), or a carriage-return break with
half the line height and one skipped byte. -/
theorem fitLoop_inl_y (p : FitParams) :
    ∀ (cs : List Char) (st : FitState) (sp : Span),
      fitLoop p cs st = Sum.inl sp →
      sp.advance.y = st.line.advance.y ∨
        (sp.advance.y = Int.tdiv p.font.line_height 2 ∧ sp.skip_next_chars = 1) := by
  intro cs
  induction cs with
  | nil => intro st sp h; exact absurd h (by simp [fitLoop])
  | cons c cs ih =>
    intro st sp h
    by_cases h1 : is_whitespace c = true ∧ st.width + p.cwe ≤ p.max_width
    · by_cases h2 : c = '\n' ∨ c = '\r'
      · rw [fitLoop_cons_ws_ret p c cs st h1 h2] at h
        simp only [Sum.inl.injEq] at h
        subst h
        by_cases hcr : c = '\r'
        · right; simp [hcr]
        · left; simp [hcr]
      · rw [fitLoop_cons_ws_go p c cs st h1 h2] at h
        rcases ih _ _ h with hl | hr
        · left
          simpa using hl
        · right; exact hr
    · by_cases h3 : p.max_width < st.width + p.font.char_width c
      · rw [fitLoop_cons_over p c cs st h1 h3] at h
        simp only [Sum.inl.injEq] at h
        subst h
        left; rfl
      · rw [fitLoop_cons_go p c cs st h1 h3] at h
        rcases ih _ _ h with hl | hr
        · left
          rw [hl]
          split_ifs <;> rfl
        · right; exact hr

/-- An early return whose span consumes no bytes at all is the untouched
stored candidate. -/
theorem fitLoop_inl_zero (p : FitParams) :
    ∀ (cs : List Char) (st : FitState) (sp : Span),
      fitLoop p cs st = Sum.inl sp →
      sp.length + sp.skip_next_chars = 0 → sp = st.line := by
  intro cs
  induction cs with
  | nil => intro st sp h; exact absurd h (by simp [fitLoop])
  | cons c cs ih =>
    intro st sp h hz
    by_cases h1 : is_whitespace c = true ∧ st.width + p.cwe ≤ p.max_width
    · by_cases h2 : c = '\n' ∨ c = '\r'
      · rw [fitLoop_cons_ws_ret p c cs st h1 h2] at h
        simp only [Sum.inl.injEq] at h
        subst h
        simp at hz
      · rw [fitLoop_cons_ws_go p c cs st h1 h2] at h
        have hsp := ih _ _ h hz
        rw [hsp] at hz
        simp at hz
    · by_cases h3 : p.max_width < st.width + p.font.char_width c
      · rw [fitLoop_cons_over p c cs st h1 h3] at h
        simp only [Sum.inl.injEq] at h
        exact h.symm
      · rw [fitLoop_cons_go p c cs st h1 h3] at h
        have hsp := ih _ _ h hz
        rw [hsp] at hz ⊢
        have hc := Char.utf8Size_pos c
        split_ifs at hz ⊢ with h4
        · simp only [Span.length] at hz
          omega
        · rfl

theorem isBoundary_append (a b : List Char) : IsBoundary (a ++ b) (byteLen a) :=
  ⟨a.length, by rw [List.take_left]⟩

theorem byteLen_singleton (c : Char) : byteLen [c] = Char.utf8Size c := by
  simp [byteLen]

/-- Positional invariant of the scan: starting at the state reached after a
prefix `pre` of the text `u` with a candidate break lying on character
boundaries, every returned span lies on character boundaries of `u`, and a
completed scan ends at byte index `byteLen u`. -/
theorem fitLoop_bound (p : FitParams) (u : List Char) :
    ∀ (cs : List Char) (st : FitState) (pre : List Char),
      u = pre ++ cs → st.i = byteLen pre →
      IsBoundary u st.line.length →
      IsBoundary u (st.line.length + st.line.skip_next_chars) →
      (∀ sp, fitLoop p cs st = Sum.inl sp →
          IsBoundary u sp.length ∧ IsBoundary u (sp.length + sp.skip_next_chars)) ∧
      (∀ st', fitLoop p cs st = Sum.inr st' →
          st'.i = byteLen u ∧ IsBoundary u st'.line.length ∧
          IsBoundary u (st'.line.length + st'.line.skip_next_chars)) := by
  intro cs
  induction cs with
  | nil =>
    intro st pre hu hi hb1 hb2
    constructor
    · intro sp h
      exact absurd h (by simp [fitLoop])
    · intro st' h
      simp only [fitLoop, Sum.inr.injEq] at h
      subst h
      refine ⟨?_, hb1, hb2⟩
      rw [hi, hu, List.append_nil]
  | cons c cs ih =>
    intro st pre hu hi hb1 hb2
    have hu' : u = (pre ++ [c]) ++ cs := by rw [hu]; simp
    have hblc : byteLen (pre ++ [c]) = byteLen pre + Char.utf8Size c := by
      rw [byteLen_append, byteLen_singleton]
    have hbpre : IsBoundary u (byteLen pre) := by
      rw [hu]; exact isBoundary_append pre (c :: cs)
    have hbprec : IsBoundary u (byteLen pre + Char.utf8Size c) := by
      rw [hu', ← hblc]
      exact isBoundary_append (pre ++ [c]) cs
    by_cases h1 : is_whitespace c = true ∧ st.width + p.cwe ≤ p.max_width
    · have hcsz : Char.utf8Size c = 1 := utf8Size_of_whitespace h1.1
      have hbrk1 : IsBoundary u st.i := hi ▸ hbpre
      have hbrk2 : IsBoundary u (st.i + 1) := by
        rw [hi, ← hcsz]; exact hbprec
      by_cases h2 : c = '\n' ∨ c = '\r'
      · constructor
        · intro sp h
          rw [fitLoop_cons_ws_ret p c cs st h1 h2] at h
          simp only [Sum.inl.injEq] at h
          subst h
          exact ⟨hbrk1, hbrk2⟩
        · intro st' h
          rw [fitLoop_cons_ws_ret p c cs st h1 h2] at h
          exact absurd h (by simp)
      · have hrec := ih
          { i := st.i + Char.utf8Size c
            width := st.width + p.font.char_width c
            found_any_whitespace := true
            line := { length := st.i, skip_next_chars := 1
                      advance := { x := st.width, y := st.line.advance.y }
                      insert_hyphen_before_line_break := false } }
          (pre ++ [c]) hu' (by dsimp only; omega)
          (by dsimp only; exact hbrk1) (by dsimp only; exact hbrk2)
        constructor
        · intro sp h
          rw [fitLoop_cons_ws_go p c cs st h1 h2] at h
          exact hrec.1 sp h
        · intro st' h
          rw [fitLoop_cons_ws_go p c cs st h1 h2] at h
          exact hrec.2 st' h
    · by_cases h3 : p.max_width < st.width + p.font.char_width c
      · constructor
        · intro sp h
          rw [fitLoop_cons_over p c cs st h1 h3] at h
          simp only [Sum.inl.injEq] at h
          subst h
          exact ⟨hb1, hb2⟩
        · intro st' h
          rw [fitLoop_cons_over p c cs st h1 h3] at h
          exact absurd h (by simp)
      · have hline :
            IsBoundary u
              (if st.width + p.font.char_width c + p.iwe ≤ p.max_width ∧
                  (¬ p.breaking = LineBreaking.BreakAtWhitespace ∨
                    st.found_any_whitespace = false) then
                ({ length := st.i + Char.utf8Size c, skip_next_chars := 0
                   advance := { x := st.width + p.font.char_width c, y := st.line.advance.y }
                   insert_hyphen_before_line_break := p.use_hyphens } : Span)
              else st.line).length ∧
            IsBoundary u
              ((if st.width + p.font.char_width c + p.iwe ≤ p.max_width ∧
                  (¬ p.breaking = LineBreaking.BreakAtWhitespace ∨
                    st.found_any_whitespace = false) then
                ({ length := st.i + Char.utf8Size c, skip_next_chars := 0
                   advance := { x := st.width + p.font.char_width c, y := st.line.advance.y }
                   insert_hyphen_before_line_break := p.use_hyphens } : Span)
              else st.line).length +
              (if st.width + p.font.char_width c + p.iwe ≤ p.max_width ∧
                  (¬ p.breaking = LineBreaking.BreakAtWhitespace ∨
                    st.found_any_whitespace = false) then
                ({ length := st.i + Char.utf8Size c, skip_next_chars := 0
                   advance := { x := st.width + p.font.char_width c, y := st.line.advance.y }
                   insert_hyphen_before_line_break := p.use_hyphens } : Span)
              else st.line).skip_next_chars) := by
          split_ifs with h4
          · dsimp only
            rw [hi]
            exact ⟨hbprec, by rw [Nat.add_zero]; exact hbprec⟩
          · exact ⟨hb1, hb2⟩
        have hrec := ih
          { i := st.i + Char.utf8Size c
            width := st.width + p.font.char_width c
            found_any_whitespace := st.found_any_whitespace
            line :=
              if st.width + p.font.char_width c + p.iwe ≤ p.max_width ∧
                  (¬ p.breaking = LineBreaking.BreakAtWhitespace ∨
                    st.found_any_whitespace = false) then
                { length := st.i + Char.utf8Size c, skip_next_chars := 0
                  advance := { x := st.width + p.font.char_width c, y := st.line.advance.y }
                  insert_hyphen_before_line_break := p.use_hyphens }
              else st.line }
          (pre ++ [c]) hu' (by dsimp only; omega) hline.1 hline.2
        constructor
        · intro sp h
          rw [fitLoop_cons_go p c cs st h1 h3] at h
          exact hrec.1 sp h
        · intro st' h
          rw [fitLoop_cons_go p c cs st h1 h3] at h
          exact hrec.2 st' h

/-- Every span `fit_horizontally` returns starts and ends on UTF-8 character
boundaries of its input. -/
theorem fit_horizontally_boundary (text : List Char) (max_width : Int)
    (font : GlyphMetrics) (breaking : LineBreaking)
    (line_ending_space : Option Int) :
    IsBoundary text (fit_horizontally text max_width font breaking line_ending_space).length ∧
    IsBoundary text
      ((fit_horizontally text max_width font breaking line_ending_space).length +
        (fit_horizontally text max_width font breaking line_ending_space).skip_next_chars) := by
  have hb := fitLoop_bound (mkFitParams text max_width font breaking line_ending_space)
    text text (initFitState font) [] (by simp) rfl
    (isBoundary_zero text) (isBoundary_zero text)
  unfold fit_horizontally
  rcases hfl : fitLoop (mkFitParams text max_width font breaking line_ending_space)
      text (initFitState font) with sp | st
  · exact hb.1 sp hfl
  · obtain ⟨hi, _, _⟩ := hb.2 st hfl
    dsimp only
    rw [hi]
    exact ⟨isBoundary_byteLen text, by rw [Nat.add_zero]; exact isBoundary_byteLen text⟩

/-- A span of `fit_horizontally` on a nonempty text that consumes no bytes
is the untouched initial candidate: a full line break with nothing placed. -/
theorem fit_horizontally_nil_consumption {text : List Char} (hne : text ≠ [])
    (max_width : Int) (font : GlyphMetrics) (breaking : LineBreaking)
    (line_ending_space : Option Int)
    (hz : (fit_horizontally text max_width font breaking line_ending_space).length +
      (fit_horizontally text max_width font breaking line_ending_space).skip_next_chars = 0) :
    fit_horizontally text max_width font breaking line_ending_space = initLine font := by
  unfold fit_horizontally at hz ⊢
  rcases hfl : fitLoop (mkFitParams text max_width font breaking line_ending_space)
      text (initFitState font) with sp | st
  · rw [hfl] at hz
    exact fitLoop_inl_zero _ text _ sp hfl hz
  · rw [hfl] at hz
    dsimp only at hz
    obtain ⟨hi, _, _⟩ := fitLoop_inr _ text _ _ hfl
    rw [hi] at hz
    simp only [initFitState] at hz
    have := byteLen_pos_of_ne_nil hne
    omega

/-- The vertical advance of a fitted span: the full line height (line
break), half of it (carriage-return break, one skipped byte), or zero for
the whole-text span. -/
theorem fit_horizontally_advance_y (text : List Char) (max_width : Int)
    (font : GlyphMetrics) (breaking : LineBreaking)
    (line_ending_space : Option Int) :
    (fit_horizontally text max_width font breaking line_ending_space).advance.y =
        font.line_height ∨
    ((fit_horizontally text max_width font breaking line_ending_space).advance.y =
        Int.tdiv font.line_height 2 ∧
      (fit_horizontally text max_width font breaking line_ending_space).skip_next_chars = 1) ∨
    ((fit_horizontally text max_width font breaking line_ending_space).length = byteLen text ∧
      (fit_horizontally text max_width font breaking line_ending_space).skip_next_chars = 0 ∧
      (fit_horizontally text max_width font breaking line_ending_space).advance.y = 0) := by
  unfold fit_horizontally
  rcases hfl : fitLoop (mkFitParams text max_width font breaking line_ending_space)
      text (initFitState font) with sp | st
  · rcases fitLoop_inl_y _ text _ sp hfl with hy | hy
    · left
      rw [hy]
      rfl
    · right; left
      exact hy
  · right; right
    obtain ⟨hi, _, _⟩ := fitLoop_inr _ text _ _ hfl
    dsimp only
    rw [hi]
    refine ⟨?_, rfl, rfl⟩
    simp [initFitState]

theorem text_width_nonneg (font : GlyphMetrics)
    (hnn : ∀ c, 0 ≤ font.char_width c) (cs : List Char) :
    0 ≤ text_width font cs := by
  apply List.sum_nonneg
  intro x hx
  simp only [List.mem_map] at hx
  obtain ⟨c, _, rfl⟩ := hx
  exact hnn c

/-- With a zero complete-word-end width, nonnegative character widths, no
LF/CR, and total width within budget, the scan runs to completion. -/
theorem fitLoop_complete (p : FitParams) (hcwe : p.cwe = 0)
    (hnn : ∀ c, 0 ≤ p.font.char_width c) :
    ∀ (cs : List Char) (st : FitState),
      '\n' ∉ cs → '\r' ∉ cs →
      st.width + text_width p.font cs ≤ p.max_width →
      ∃ st', fitLoop p cs st = Sum.inr st' := by
  intro cs
  induction cs with
  | nil => intro st _ _ _; exact ⟨st, rfl⟩
  | cons c cs ih =>
    intro st hLF hCR hw
    have hLF' : '\n' ∉ cs := fun h => hLF (List.mem_cons_of_mem c h)
    have hCR' : '\r' ∉ cs := fun h => hCR (List.mem_cons_of_mem c h)
    have hcne : ¬ c = '\n' := fun h => hLF (h ▸ List.mem_cons_self c cs)
    have hcre : ¬ c = '\r' := fun h => hCR (h ▸ List.mem_cons_self c cs)
    have htwnn : 0 ≤ text_width p.font cs := text_width_nonneg p.font hnn cs
    have hcnn : 0 ≤ p.font.char_width c := hnn c
    rw [text_width_cons] at hw
    by_cases hws : is_whitespace c = true
    · have h1 : is_whitespace c = true ∧ st.width + p.cwe ≤ p.max_width := by
        refine ⟨hws, ?_⟩
        rw [hcwe]
        omega
      have h2 : ¬ (c = '\n' ∨ c = '\r') := by
        rintro (h | h)
        · exact hcne h
        · exact hcre h
      rw [fitLoop_cons_ws_go p c cs st h1 h2]
      exact ih _ hLF' hCR' (by dsimp only; omega)
    · have h1 : ¬ (is_whitespace c = true ∧ st.width + p.cwe ≤ p.max_width) :=
        fun h => hws h.1
      have h3 : ¬ p.max_width < st.width + p.font.char_width c := by omega
      rw [fitLoop_cons_go p c cs st h1 h3]
      exact ih _ hLF' hCR' (by dsimp only; omega)

/-- Under the break-at-whitespace policy, once whitespace has been found on
the line, a scan over whitespace-free characters can never change the stored
candidate: an early return yields it untouched. -/
theorem fitLoop_no_ws_stuck (p : FitParams)
    (hbaw : p.breaking = LineBreaking.BreakAtWhitespace) :
    ∀ (cs : List Char) (st : FitState) (sp : Span),
      fitLoop p cs st = Sum.inl sp →
      (∀ x ∈ cs, is_whitespace x = false) →
      st.found_any_whitespace = true → sp = st.line := by
  intro cs
  induction cs with
  | nil => intro st sp h; exact absurd h (by simp [fitLoop])
  | cons c cs ih =>
    intro st sp h hnows hfound
    have hws : is_whitespace c = false := hnows c (List.mem_cons_self c cs)
    have h1 : ¬ (is_whitespace c = true ∧ st.width + p.cwe ≤ p.max_width) := by
      rw [hws]; rintro ⟨h, -⟩; cases h
    by_cases h3 : p.max_width < st.width + p.font.char_width c
    · rw [fitLoop_cons_over p c cs st h1 h3] at h
      simp only [Sum.inl.injEq] at h
      exact h.symm
    · rw [fitLoop_cons_go p c cs st h1 h3] at h
      have hnorec :
          ¬ (st.width + p.font.char_width c + p.iwe ≤ p.max_width ∧
            (¬ p.breaking = LineBreaking.BreakAtWhitespace ∨
              st.found_any_whitespace = false)) := by
        rintro ⟨-, hcb | hcb⟩
        · exact hcb hbaw
        · rw [hfound] at hcb; cases hcb
      rw [if_neg hnorec] at h
      have := ih _ sp h (fun x hx => hnows x (List.mem_cons_of_mem c hx)) hfound
      simpa using this

/-- Claim C7: every span returned by `fit_horizontally` has a length lying
on a UTF-8 character boundary of the input text, for every width budget,
metrics, breaking policy and reserved end width. -/
theorem claim_C7_utf8_boundary (text : List Char) (max_width : Int)
    (font : GlyphMetrics) (breaking : LineBreaking)
    (line_ending_space : Option Int) :
    IsBoundary text
      (fit_horizontally text max_width font breaking line_ending_space).length :=
  (fit_horizontally_boundary text max_width font breaking line_ending_space).1

/-- Claim C2, counterexample to the claim as stated: the text `"a\nb"` has
measured width `3 ≤ 10`, yet `fit_horizontally` does not return a single
span covering the whole text — it hard-breaks at the LF, with length 1. -/
theorem claim_C2_counterexample :
    text_width fixedFont ['a', '\n', 'b'] ≤ 10 ∧
    (fit_horizontally ['a', '\n', 'b'] 10 fixedFont LineBreaking.BreakAtWhitespace
        none).length ≠ byteLen ['a', '\n', 'b'] ∧
    (fit_horizontally ['a', '\n', 'b'] 10 fixedFont LineBreaking.BreakAtWhitespace
        none).advance.y ≠ 0 := by
  decide

/-- Claim C2, amended: if the text contains no LF and no CR, character
widths are nonnegative, and the measured width of the whole text is at most
`max_width`, then `fit_horizontally` returns a single span covering the
whole text with no line break, no skipped bytes and no hyphen. -/
theorem claim_C2_amended (text : List Char) (max_width : Int)
    (font : GlyphMetrics) (breaking : LineBreaking)
    (line_ending_space : Option Int)
    (hnn : ∀ c, 0 ≤ font.char_width c)
    (hLF : '\n' ∉ text) (hCR : '\r' ∉ text)
    (hfits : text_width font text ≤ max_width) :
    fit_horizontally text max_width font breaking line_ending_space =
      { length := byteLen text, skip_next_chars := 0
        advance := { x := text_width font text, y := 0 }
        insert_hyphen_before_line_break := false } := by
  have hcwe : (mkFitParams text max_width font breaking line_ending_space).cwe = 0 := by
    simp only [mkFitParams]
    rw [if_pos hfits]
  obtain ⟨st', h⟩ := fitLoop_complete
    (mkFitParams text max_width font breaking line_ending_space) hcwe hnn
    text (initFitState font) hLF hCR
    (by simpa [initFitState] using hfits)
  unfold fit_horizontally
  rw [h]
  obtain ⟨hi, hw, -⟩ := fitLoop_inr _ text _ _ h
  dsimp only
  rw [hi, hw]
  simp [initFitState, mkFitParams]

/-- Claim C2 witness: a concrete instance of the amended statement. -/
theorem claim_C2_witness :
    fit_horizontally ['h', 'i'] 10 fixedFont LineBreaking.BreakAtWhitespace none =
      { length := 2, skip_next_chars := 0, advance := { x := 2, y := 0 }
        insert_hyphen_before_line_break := false } := by
  have h := claim_C2_amended ['h', 'i'] 10 fixedFont LineBreaking.BreakAtWhitespace
    none (fun _ => zero_le_one) (by decide) (by decide) (by decide)
  rw [h]
  decide

/-- Claim C6: if the scan reaches an LF or CR (the scan of the preceding
characters `a` runs to completion in state `st`) and the accumulated width
plus the complete-word-end width is within `max_width`, `fit_horizontally`
returns immediately at that character: length is the byte offset of the
LF/CR, one byte is skipped, no hyphen, and the vertical advance is the full
line height for LF but the (truncated) half line height for CR. -/
theorem claim_C6_hard_breaks (a b : List Char) (c : Char) (max_width : Int)
    (font : GlyphMetrics) (breaking : LineBreaking)
    (line_ending_space : Option Int) (st : FitState)
    (hc : c = '\n' ∨ c = '\r')
    (hscan : fitLoop (mkFitParams (a ++ c :: b) max_width font breaking
        line_ending_space) a (initFitState font) = Sum.inr st)
    (hbudget : st.width + (mkFitParams (a ++ c :: b) max_width font breaking
        line_ending_space).cwe ≤ max_width) :
    fit_horizontally (a ++ c :: b) max_width font breaking line_ending_space =
      { length := byteLen a, skip_next_chars := 1
        advance := { x := st.width
                     y := if c = '\r' then Int.tdiv font.line_height 2
                          else font.line_height }
        insert_hyphen_before_line_break := false } := by
  have hws : is_whitespace c = true := by
    rcases hc with h | h <;> subst h <;> decide
  have h1 : is_whitespace c = true ∧
      st.width + (mkFitParams (a ++ c :: b) max_width font breaking
        line_ending_space).cwe ≤
        (mkFitParams (a ++ c :: b) max_width font breaking line_ending_space).max_width :=
    ⟨hws, hbudget⟩
  obtain ⟨hi, -, hy⟩ := fitLoop_inr _ a _ _ hscan
  unfold fit_horizontally
  rw [fitLoop_append, hscan]
  dsimp only
  rw [fitLoop_cons_ws_ret _ c b st h1 hc]
  dsimp only
  rw [hy]
  simp [initFitState, initLine, hi, mkFitParams]

/-- Claim C6 witness: a concrete LF hard break. -/
theorem claim_C6_witness :
    fit_horizontally ['a', '\n', 'b'] 10 fixedFont LineBreaking.BreakAtWhitespace
        none =
      { length := 1, skip_next_chars := 1, advance := { x := 1, y := 1 }
        insert_hyphen_before_line_break := false } := by
  have h := claim_C6_hard_breaks ['a'] ['b'] '\n' 10 fixedFont
    LineBreaking.BreakAtWhitespace none
    { i := 1, width := 1, found_any_whitespace := false
      line := { length := 1, skip_next_chars := 0, advance := { x := 1, y := 1 }
                insert_hyphen_before_line_break := false } }
    (Or.inl rfl) (by decide) (by decide)
  show fit_horizontally (['a'] ++ ['\n', 'b']) 10 fixedFont
    LineBreaking.BreakAtWhitespace none = _
  rw [h]
  decide

/-- Claim C5, counterexample to the claim as stated: in `"a\nb c dd"` with
width budget 5 under break-at-whitespace, the whitespace at byte offset 5
is within the budget and precedes the overflow point, but the fitter does
not break at the last such whitespace: it hard-breaks at the LF at offset
1. -/
theorem claim_C5_counterexample :
    text_width fixedFont (List.take 5 ['a','\n','b',' ','c',' ','d','d']) ≤ 5 ∧
    ['a','\n','b',' ','c',' ','d','d'][5]? = some ' ' ∧
    5 < text_width fixedFont ['a','\n','b',' ','c',' ','d','d'] ∧
    (fit_horizontally ['a','\n','b',' ','c',' ','d','d'] 5 fixedFont
        LineBreaking.BreakAtWhitespace none).length = 1 ∧
    (fit_horizontally ['a','\n','b',' ','c',' ','d','d'] 5 fixedFont
        LineBreaking.BreakAtWhitespace none).length ≠ 5 := by
  decide

/-- Claim C5, amended: under break-at-whitespace, when the text splits as
`a ++ ' ' :: b` where the scan reaches the space (completing `a` in state
`st`), the space is within the width budget, `b` contains no further
whitespace (the space is the last whitespace of the text), and the scan past
the space overflows, then the fitter breaks exactly at that whitespace:
length is its byte offset, the space itself is skipped, and no hyphen is
inserted — never mid-word. -/
theorem claim_C5_amended (a b : List Char) (max_width : Int)
    (font : GlyphMetrics) (line_ending_space : Option Int) (st : FitState)
    (hscan : fitLoop (mkFitParams (a ++ ' ' :: b) max_width font
        LineBreaking.BreakAtWhitespace line_ending_space) a
        (initFitState font) = Sum.inr st)
    (hbudget : st.width + (mkFitParams (a ++ ' ' :: b) max_width font
        LineBreaking.BreakAtWhitespace line_ending_space).cwe ≤ max_width)
    (hnows : ∀ x ∈ b, is_whitespace x = false)
    (hstuck : ∃ sp', fitLoop (mkFitParams (a ++ ' ' :: b) max_width font
        LineBreaking.BreakAtWhitespace line_ending_space) (' ' :: b) st =
        Sum.inl sp') :
    fit_horizontally (a ++ ' ' :: b) max_width font
        LineBreaking.BreakAtWhitespace line_ending_space =
      { length := byteLen a, skip_next_chars := 1
        advance := { x := st.width, y := font.line_height }
        insert_hyphen_before_line_break := false } := by
  have h1 : is_whitespace ' ' = true ∧
      st.width + (mkFitParams (a ++ ' ' :: b) max_width font
        LineBreaking.BreakAtWhitespace line_ending_space).cwe ≤
        (mkFitParams (a ++ ' ' :: b) max_width font
          LineBreaking.BreakAtWhitespace line_ending_space).max_width :=
    ⟨by decide, hbudget⟩
  have h2 : ¬ (' ' = '\n' ∨ ' ' = '\r') := by decide
  have hstep := fitLoop_cons_ws_go (mkFitParams (a ++ ' ' :: b) max_width font
    LineBreaking.BreakAtWhitespace line_ending_space) ' ' b st h1 h2
  obtain ⟨sp', hsp'⟩ := hstuck
  rw [hstep] at hsp'
  have hspeq := fitLoop_no_ws_stuck _ rfl b _ sp' hsp' hnows rfl
  obtain ⟨hi, -, hy⟩ := fitLoop_inr _ a _ _ hscan
  unfold fit_horizontally
  rw [fitLoop_append, hscan]
  dsimp only
  rw [hstep, hsp', hspeq]
  dsimp only
  rw [hy]
  simp [initFitState, initLine, hi]

/-- Claim C5 witness: `"ab cddd"` with width budget 5 breaks at the space
(byte offset 2), skipping it, with no hyphen. -/
theorem claim_C5_witness :
    fit_horizontally ['a','b',' ','c','d','d','d'] 5 fixedFont
        LineBreaking.BreakAtWhitespace none =
      { length := 2, skip_next_chars := 1, advance := { x := 2, y := 1 }
        insert_hyphen_before_line_break := false } := by
  have h := claim_C5_amended ['a','b'] ['c','d','d','d'] 5 fixedFont none
    { i := 2, width := 2, found_any_whitespace := false
      line := { length := 2, skip_next_chars := 0, advance := { x := 2, y := 1 }
                insert_hyphen_before_line_break := true } }
    (by decide) (by decide) (by decide)
    ⟨{ length := 2, skip_next_chars := 1, advance := { x := 2, y := 1 }
       insert_hyphen_before_line_break := false }, by decide⟩
  show fit_horizontally (['a','b'] ++ [' ','c','d','d','d']) 5 fixedFont
    LineBreaking.BreakAtWhitespace none = _
  rw [h]
  decide

/-!  Driver lemmas. -/

theorem layoutLoop_nil (l : TextLayout) (totalLen : Nat) (init_cursor : Point) :
    ∀ (fuel : Nat) (cursor : Point),
      layoutLoop l totalLen init_cursor fuel [] cursor =
        some { fit := LayoutFit.Fitting totalLen (layout_height l init_cursor cursor)
               endCursor := cursor, events := [], pieces := [], remaining := []
               lastHyphen := false } := by
  intro fuel cursor
  cases fuel <;> rfl

theorem layoutLoop_succ (l : TextLayout) (totalLen : Nat) (init_cursor : Point)
    (fuel : Nat) (c : Char) (rest : List Char) (cursor : Point) :
    layoutLoop l totalLen init_cursor (fuel + 1) (c :: rest) cursor =
      layoutIter l totalLen init_cursor (layoutLoop l totalLen init_cursor fuel)
        (c :: rest) cursor := rfl

theorem piecesText_nil : piecesText [] = [] := rfl

theorem piecesText_cons (pc : List Char × List Char)
    (ps : List (List Char × List Char)) :
    piecesText (pc :: ps) = (pc.1 ++ pc.2) ++ piecesText ps := by
  simp [piecesText]

/-- Byte accounting of one driving pass: the consumed pieces followed by the
unconsumed suffix reassemble the input; a `Fitting` result consumed
everything and reports `totalLen`; an `OutOfBounds` result reports exactly
the bytes missing from the unconsumed suffix. -/
def Accounts (totalLen : Nat) (u : List Char) (r : LoopResult) : Prop :=
  piecesText r.pieces ++ r.remaining = u ∧
  byteLen r.remaining ≤ byteLen u ∧
  (∀ p h, r.fit = LayoutFit.Fitting p h → p = totalLen ∧ r.remaining = []) ∧
  (∀ p h, r.fit = LayoutFit.OutOfBounds p h → p = totalLen - byteLen r.remaining)

theorem layoutIter_accounts (l : TextLayout) (totalLen : Nat)
    (init_cursor : Point) (recur : List Char → Point → Option LoopResult)
    (hrec : ∀ u' c' r', recur u' c' = some r' → Accounts totalLen u' r')
    (u : List Char) (cursor : Point) (r : LoopResult)
    (h : layoutIter l totalLen init_cursor recur u cursor = some r) :
    Accounts totalLen u r := by
  have hb1 := (fit_horizontally_boundary u (l.bounds.x1 - cursor.x)
    l.style.text_font l.style.line_breaking (lineEndingSpace l cursor)).1
  have hb2 := (fit_horizontally_boundary u (l.bounds.x1 - cursor.x)
    l.style.text_font l.style.line_breaking (lineEndingSpace l cursor)).2
  rw [show fit_horizontally u (l.bounds.x1 - cursor.x) l.style.text_font
      l.style.line_breaking (lineEndingSpace l cursor) = iterSpan l cursor u from rfl]
    at hb1 hb2
  obtain ⟨hsplit, hlen, hle⟩ := byte_split hb1 hb2
  simp only [layoutIter] at h
  by_cases hadv : 0 < (iterSpan l cursor u).advance.y
  · rw [if_pos hadv] at h
    by_cases hoob : bottom_y l < cursor.y + (iterSpan l cursor u).advance.y
    · rw [if_pos hoob] at h
      simp only [Option.some.injEq] at h
      subst h
      refine ⟨?_, hlen ▸ Nat.sub_le _ _, ?_, ?_⟩
      · simpa [piecesText] using hsplit
      · intro p hh hfit; cases hfit
      · intro p hh hfit
        simp only [LayoutFit.OutOfBounds.injEq] at hfit
        exact hfit.1.symm
    · rw [if_neg hoob] at h
      rcases hr : recur (byteDrop ((iterSpan l cursor u).length +
          (iterSpan l cursor u).skip_next_chars) u)
          ({ x := l.bounds.x0
             y := cursor.y + (iterSpan l cursor u).advance.y } : Point) with r' | r'
      · rw [hr] at h; cases h
      · rw [hr] at h
        simp only [Option.some.injEq] at h
        subst h
        obtain ⟨ih1, ih2, ih3, ih4⟩ := hrec _ _ _ hr
        refine ⟨?_, ?_, ?_, ?_⟩
        · simp only [piecesText_cons]
          rw [List.append_assoc, ih1]
          exact hsplit
        · simp only
          omega
        · intro p hh hfit
          exact ih3 p hh hfit
        · intro p hh hfit
          simp only at hfit ⊢
          rw [ih4 p hh hfit]
  · rw [if_neg hadv] at h
    rcases hr : recur (byteDrop ((iterSpan l cursor u).length +
        (iterSpan l cursor u).skip_next_chars) u)
        ({ x := cursor.x + alignShift l.align (l.bounds.x1 - cursor.x)
              (iterSpan l cursor u).advance.x + (iterSpan l cursor u).advance.x
           y := cursor.y } : Point) with r' | r'
    · rw [hr] at h; cases h
    · rw [hr] at h
      simp only [Option.some.injEq] at h
      subst h
      obtain ⟨ih1, ih2, ih3, ih4⟩ := hrec _ _ _ hr
      refine ⟨?_, ?_, ?_, ?_⟩
      · simp only [piecesText_cons]
        rw [List.append_assoc, ih1]
        exact hsplit
      · simp only
        omega
      · intro p hh hfit
        exact ih3 p hh hfit
      · intro p hh hfit
        simp only at hfit ⊢
        rw [ih4 p hh hfit]

theorem layoutLoop_accounts (l : TextLayout) (totalLen : Nat)
    (init_cursor : Point) :
    ∀ (fuel : Nat) (u : List Char) (cursor : Point) (r : LoopResult),
      layoutLoop l totalLen init_cursor fuel u cursor = some r →
      Accounts totalLen u r := by
  intro fuel
  induction fuel with
  | zero =>
    intro u cursor r h
    cases u with
    | nil =>
      rw [layoutLoop_nil] at h
      simp only [Option.some.injEq] at h
      subst h
      exact ⟨rfl, Nat.le_refl _, fun p hh hfit => by
        simp only [LayoutFit.Fitting.injEq] at hfit
        exact ⟨hfit.1.symm, rfl⟩, fun p hh hfit => by cases hfit⟩
    | cons c rest => cases h
  | succ fuel ih =>
    intro u cursor r h
    cases u with
    | nil =>
      rw [layoutLoop_nil] at h
      simp only [Option.some.injEq] at h
      subst h
      exact ⟨rfl, Nat.le_refl _, fun p hh hfit => by
        simp only [LayoutFit.Fitting.injEq] at hfit
        exact ⟨hfit.1.symm, rfl⟩, fun p hh hfit => by cases hfit⟩
    | cons c rest =>
      rw [layoutLoop_succ] at h
      exact layoutIter_accounts l totalLen init_cursor _
        (fun u' c' r' h' => ih u' c' r' h') (c :: rest) cursor r h

/-- Claim C1, counterexample to the claim as stated: on a one-line page the
text `"a\n"` is consumed entirely (the LF is the skipped break byte), yet the
pass returns `OutOfBounds` with `processed_chars = 2 = text.len()`, not
strictly less. -/
theorem claim_C1_counterexample :
    Option.map LoopResult.fit
      (fit_text (mkLayout 10 1 LineBreaking.BreakAtWhitespace
        PageBreaking.CutAndInsertEllipsis Alignment.Start) ['a', '\n'] false 5) =
      some (LayoutFit.OutOfBounds 2 1) ∧
    byteLen ['a', '\n'] = 2 := by
  decide

/-- Claim C1, amended: a `Fitting` result reports `processed_chars` equal to
the byte length of the text; an `OutOfBounds` result reports at most that
length (equality is possible when the final skipped break byte consumes the
end of the input); and the per-span consumed pieces (span text plus skipped
bytes) followed by the unconsumed suffix reassemble the input exactly, the
reported count being precisely the byte length of the consumed pieces — no
byte double-counted or dropped. -/
theorem claim_C1_amended (l : TextLayout) (text : List Char) (cursor : Point)
    (prevPageWidth : Int) (continues : Bool) (fuel : Nat) (r : LoopResult)
    (h : layout_text l text cursor prevPageWidth continues fuel = some r) :
    (∀ p hh, r.fit = LayoutFit.Fitting p hh → p = byteLen text) ∧
    (∀ p hh, r.fit = LayoutFit.OutOfBounds p hh → p ≤ byteLen text) ∧
    piecesText r.pieces ++ r.remaining = text ∧
    byteLen (piecesText r.pieces) = r.fit.processed := by
  simp only [layout_text] at h
  by_cases hpre : bottom_y l < cursor.y
  · rw [if_pos hpre] at h
    simp only [Option.some.injEq] at h
    subst h
    refine ⟨?_, ?_, rfl, rfl⟩
    · intro p hh hfit; cases hfit
    · intro p hh hfit
      simp only [LayoutFit.OutOfBounds.injEq] at hfit
      omega
  · rw [if_neg hpre] at h
    rcases hr : layoutLoop l (byteLen text) cursor fuel text
        (if continues then { x := cursor.x + prevPageWidth, y := cursor.y } else cursor)
        with r0 | r0
    · rw [hr] at h; cases h
    · rw [hr] at h
      simp only [Option.some.injEq] at h
      subst h
      obtain ⟨ih1, ih2, ih3, ih4⟩ := layoutLoop_accounts l (byteLen text) cursor
        fuel text _ r0 hr
      have hsum : byteLen (piecesText r0.pieces) + byteLen r0.remaining = byteLen text := by
        rw [← byteLen_append, ih1]
      refine ⟨?_, ?_, ih1, ?_⟩
      · intro p hh hfit
        exact (ih3 p hh hfit).1
      · intro p hh hfit
        rw [ih4 p hh hfit]
        exact Nat.sub_le _ _
      · rcases hfit : r0.fit with ⟨p, hh⟩ | ⟨p, hh⟩
        · obtain ⟨hp, hrem⟩ := ih3 p hh hfit
          rw [hrem, show byteLen ([] : List Char) = 0 from rfl] at hsum
          dsimp only
          simp only [LayoutFit.processed]
          omega
        · have hp := ih4 p hh hfit
          dsimp only
          simp only [LayoutFit.processed]
          omega

/-- Claim C1 witness: the amended statement at the one-line `"a\n"` pass. -/
theorem claim_C1_witness :
    (∀ p hh, ({ fit := LayoutFit.OutOfBounds 2 1, endCursor := { x := 1, y := 1 }
                events := [Event.text { x := 0, y := 1 } ['a'], Event.outOfBounds]
                pieces := [(['a'], ['\n'])], remaining := []
                lastHyphen := false } : LoopResult).fit =
        LayoutFit.Fitting p hh → p = byteLen ['a', '\n']) ∧
    (∀ p hh, ({ fit := LayoutFit.OutOfBounds 2 1, endCursor := { x := 1, y := 1 }
                events := [Event.text { x := 0, y := 1 } ['a'], Event.outOfBounds]
                pieces := [(['a'], ['\n'])], remaining := []
                lastHyphen := false } : LoopResult).fit =
        LayoutFit.OutOfBounds p hh → p ≤ byteLen ['a', '\n']) ∧
    piecesText ({ fit := LayoutFit.OutOfBounds 2 1, endCursor := { x := 1, y := 1 }
                  events := [Event.text { x := 0, y := 1 } ['a'], Event.outOfBounds]
                  pieces := [(['a'], ['\n'])], remaining := []
                  lastHyphen := false } : LoopResult).pieces ++
      ({ fit := LayoutFit.OutOfBounds 2 1, endCursor := { x := 1, y := 1 }
         events := [Event.text { x := 0, y := 1 } ['a'], Event.outOfBounds]
         pieces := [(['a'], ['\n'])], remaining := []
         lastHyphen := false } : LoopResult).remaining = ['a', '\n'] ∧
    byteLen (piecesText ({ fit := LayoutFit.OutOfBounds 2 1
                           endCursor := { x := 1, y := 1 }
                           events := [Event.text { x := 0, y := 1 } ['a'],
                                      Event.outOfBounds]
                           pieces := [(['a'], ['\n'])], remaining := []
                           lastHyphen := false } : LoopResult).pieces) =
      ({ fit := LayoutFit.OutOfBounds 2 1, endCursor := { x := 1, y := 1 }
         events := [Event.text { x := 0, y := 1 } ['a'], Event.outOfBounds]
         pieces := [(['a'], ['\n'])], remaining := []
         lastHyphen := false } : LoopResult).fit.processed :=
  claim_C1_amended (mkLayout 10 1 LineBreaking.BreakAtWhitespace
      PageBreaking.CutAndInsertEllipsis Alignment.Start) ['a', '\n']
    { x := 0, y := 1 } 2 false 5 _ (by decide)

/-- Claim C4: if the initial cursor is already strictly below `bottom_y`,
`layout_text` reports out-of-bounds to the sink and returns
`OutOfBounds{processed_chars = 0, height = 0}` without consuming any
input. -/
theorem claim_C4_degenerate_height (l : TextLayout) (text : List Char)
    (cursor : Point) (prevPageWidth : Int) (continues : Bool) (fuel : Nat)
    (h : bottom_y l < cursor.y) :
    layout_text l text cursor prevPageWidth continues fuel =
      some { fit := LayoutFit.OutOfBounds 0 0, endCursor := cursor
             events := [Event.outOfBounds], pieces := [], remaining := text
             lastHyphen := false } := by
  simp only [layout_text]
  rw [if_pos h]

/-- Claim C4 witness: a zero-height box. -/
theorem claim_C4_witness :
    layout_text (mkLayout 5 0 LineBreaking.BreakAtWhitespace
        PageBreaking.CutAndInsertEllipsis Alignment.Start) ['a', 'b']
        { x := 0, y := 1 } 2 false 3 =
      some { fit := LayoutFit.OutOfBounds 0 0, endCursor := { x := 0, y := 1 }
             events := [Event.outOfBounds], pieces := [], remaining := ['a', 'b']
             lastHyphen := false } :=
  claim_C4_degenerate_height _ ['a', 'b'] { x := 0, y := 1 } 2 false 3 (by decide)

/-- An ellipsis event is reported in a pass exactly when the pass ended
out-of-bounds inside the main loop with the cut-with-ellipsis policy,
unconsumed input remaining, and no hyphen requested by the final span. -/
def EllipsisOk (pb : PageBreaking) (r : LoopResult) : Prop :=
  (∃ pt, Event.ellipsis pt ∈ r.events) ↔
    ((∃ p h, r.fit = LayoutFit.OutOfBounds p h) ∧
      pb = PageBreaking.CutAndInsertEllipsis ∧ r.remaining ≠ [] ∧
      r.lastHyphen = false)

theorem layoutIter_ellipsis (l : TextLayout) (totalLen : Nat)
    (init_cursor : Point) (recur : List Char → Point → Option LoopResult)
    (hrec : ∀ u' c' r', recur u' c' = some r' →
      EllipsisOk l.style.page_breaking r')
    (u : List Char) (cursor : Point) (r : LoopResult)
    (h : layoutIter l totalLen init_cursor recur u cursor = some r) :
    EllipsisOk l.style.page_breaking r := by
  simp only [layoutIter] at h
  by_cases hadv : 0 < (iterSpan l cursor u).advance.y
  · rw [if_pos hadv] at h
    by_cases hoob : bottom_y l < cursor.y + (iterSpan l cursor u).advance.y
    · rw [if_pos hoob] at h
      simp only [Option.some.injEq] at h
      subst h
      unfold EllipsisOk
      by_cases ht : 0 < (iterSpan l cursor u).length <;>
        by_cases hhy : (iterSpan l cursor u).insert_hyphen_before_line_break <;>
        by_cases hel : byteDrop ((iterSpan l cursor u).length +
            (iterSpan l cursor u).skip_next_chars) u ≠ [] ∧
          l.style.page_breaking = PageBreaking.CutAndInsertEllipsis ∧
          (iterSpan l cursor u).insert_hyphen_before_line_break = false <;>
        simp_all <;> tauto
    · rw [if_neg hoob] at h
      rcases hr : recur (byteDrop ((iterSpan l cursor u).length +
          (iterSpan l cursor u).skip_next_chars) u)
          ({ x := l.bounds.x0
             y := cursor.y + (iterSpan l cursor u).advance.y } : Point) with r' | r'
      · rw [hr] at h; cases h
      · rw [hr] at h
        simp only [Option.some.injEq] at h
        subst h
        have ih := hrec _ _ _ hr
        unfold EllipsisOk at ih ⊢
        by_cases ht : 0 < (iterSpan l cursor u).length <;>
          by_cases hhy : (iterSpan l cursor u).insert_hyphen_before_line_break <;>
          simp_all
  · rw [if_neg hadv] at h
    rcases hr : recur (byteDrop ((iterSpan l cursor u).length +
        (iterSpan l cursor u).skip_next_chars) u)
        ({ x := cursor.x + alignShift l.align (l.bounds.x1 - cursor.x)
              (iterSpan l cursor u).advance.x + (iterSpan l cursor u).advance.x
           y := cursor.y } : Point) with r' | r'
    · rw [hr] at h; cases h
    · rw [hr] at h
      simp only [Option.some.injEq] at h
      subst h
      have ih := hrec _ _ _ hr
      unfold EllipsisOk at ih ⊢
      by_cases ht : 0 < (iterSpan l cursor u).length <;> simp_all

theorem layoutLoop_ellipsis (l : TextLayout) (totalLen : Nat)
    (init_cursor : Point) :
    ∀ (fuel : Nat) (u : List Char) (cursor : Point) (r : LoopResult),
      layoutLoop l totalLen init_cursor fuel u cursor = some r →
      EllipsisOk l.style.page_breaking r := by
  intro fuel
  induction fuel with
  | zero =>
    intro u cursor r h
    cases u with
    | nil =>
      rw [layoutLoop_nil] at h
      simp only [Option.some.injEq] at h
      subst h
      unfold EllipsisOk
      simp
    | cons c rest => cases h
  | succ fuel ih =>
    intro u cursor r h
    cases u with
    | nil =>
      rw [layoutLoop_nil] at h
      simp only [Option.some.injEq] at h
      subst h
      unfold EllipsisOk
      simp
    | cons c rest =>
      rw [layoutLoop_succ] at h
      exact layoutIter_ellipsis l totalLen init_cursor _
        (fun u' c' r' h' => ih u' c' r' h') (c :: rest) cursor r h

/-- Claim C3: in a pass that enters the main loop (the height pre-check
passes) and returns `OutOfBounds`, an ellipsis event is reported if and only
if the page-breaking policy is cut-with-ellipsis, unconsumed input remains,
and the span ending the last line did not request a hyphen; in particular a
hyphen event and an ellipsis event are never both emitted at the page
end. -/
theorem claim_C3_ellipsis (l : TextLayout) (text : List Char) (cursor : Point)
    (prevPageWidth : Int) (continues : Bool) (fuel : Nat) (r : LoopResult)
    (h : layout_text l text cursor prevPageWidth continues fuel = some r)
    (hpre : cursor.y ≤ bottom_y l)
    (p : Nat) (ht : Int) (hfit : r.fit = LayoutFit.OutOfBounds p ht) :
    ((∃ pt, Event.ellipsis pt ∈ r.events) ↔
      (l.style.page_breaking = PageBreaking.CutAndInsertEllipsis ∧
        r.remaining ≠ [] ∧ r.lastHyphen = false)) ∧
    (r.lastHyphen = true → ¬ ∃ pt, Event.ellipsis pt ∈ r.events) := by
  simp only [layout_text] at h
  rw [if_neg (by omega : ¬ bottom_y l < cursor.y)] at h
  rcases hr : layoutLoop l (byteLen text) cursor fuel text
      (if continues then { x := cursor.x + prevPageWidth, y := cursor.y } else cursor)
      with r0 | r0
  · rw [hr] at h; cases h
  · rw [hr] at h
    simp only [Option.some.injEq] at h
    subst h
    have ih := layoutLoop_ellipsis l (byteLen text) cursor fuel text _ r0 hr
    unfold EllipsisOk at ih
    simp only at hfit
    have hmem : ∀ pt, (Event.ellipsis pt ∈
        (if continues then [Event.prevPageEllipsis] else []) ++ r0.events) ↔
        Event.ellipsis pt ∈ r0.events := by
      intro pt
      by_cases hc : continues <;> simp [hc]
    constructor
    · constructor
      · rintro ⟨pt, hpt⟩
        rw [hmem pt] at hpt
        have := ih.1 ⟨pt, hpt⟩
        exact ⟨this.2.1, this.2.2⟩
      · rintro ⟨h1, h2, h3⟩
        obtain ⟨pt, hpt⟩ := ih.2 ⟨⟨p, ht, hfit⟩, h1, h2, h3⟩
        exact ⟨pt, (hmem pt).mpr hpt⟩
    · rintro hhy ⟨pt, hpt⟩
      rw [hmem pt] at hpt
      have := ih.1 ⟨pt, hpt⟩
      rw [this.2.2.2] at hhy
      cases hhy

/-- Claim C3 witness: a one-line page with more text than fits, policy
cut-with-ellipsis, whitespace breaking (no hyphen): the ellipsis event is
emitted. -/
theorem claim_C3_witness :
    (Option.map LoopResult.fit
      (fit_text (mkLayout 5 1 LineBreaking.BreakAtWhitespace
        PageBreaking.CutAndInsertEllipsis Alignment.Start)
        ['a', 'b', ' ', 'c', 'd', 'd', 'd'] false 5) =
      some (LayoutFit.OutOfBounds 3 1)) ∧
    ∀ r, fit_text (mkLayout 5 1 LineBreaking.BreakAtWhitespace
        PageBreaking.CutAndInsertEllipsis Alignment.Start)
        ['a', 'b', ' ', 'c', 'd', 'd', 'd'] false 5 = some r →
      ((∃ pt, Event.ellipsis pt ∈ r.events) ↔
        (PageBreaking.CutAndInsertEllipsis = PageBreaking.CutAndInsertEllipsis ∧
          r.remaining ≠ [] ∧ r.lastHyphen = false)) := by
  constructor
  · decide
  · intro r hr
    have h := claim_C3_ellipsis
      (mkLayout 5 1 LineBreaking.BreakAtWhitespace
        PageBreaking.CutAndInsertEllipsis Alignment.Start)
      ['a', 'b', ' ', 'c', 'd', 'd', 'd']
      (initial_cursor (mkLayout 5 1 LineBreaking.BreakAtWhitespace
        PageBreaking.CutAndInsertEllipsis Alignment.Start))
      (prev_page_ellipsis_width fixedFont) false 5 r hr (by decide) 3 1 ?_
    · exact h.1
    · have : r = { fit := LayoutFit.OutOfBounds 3 1
                   endCursor := { x := 2, y := 1 }
                   events := [Event.text { x := 0, y := 1 } ['a', 'b'],
                              Event.ellipsis { x := 2, y := 1 },
                              Event.outOfBounds]
                   pieces := [(['a', 'b'], [' '])]
                   remaining := ['c', 'd', 'd', 'd']
                   lastHyphen := false } := by
        have hcalc : fit_text (mkLayout 5 1 LineBreaking.BreakAtWhitespace
            PageBreaking.CutAndInsertEllipsis Alignment.Start)
            ['a', 'b', ' ', 'c', 'd', 'd', 'd'] false 5 =
            some { fit := LayoutFit.OutOfBounds 3 1
                   endCursor := { x := 2, y := 1 }
                   events := [Event.text { x := 0, y := 1 } ['a', 'b'],
                              Event.ellipsis { x := 2, y := 1 },
                              Event.outOfBounds]
                   pieces := [(['a', 'b'], [' '])]
                   remaining := ['c', 'd', 'd', 'd']
                   lastHyphen := false } := by decide
        rw [hr] at hcalc
        exact (Option.some.injEq _ _).mp hcalc
      rw [this]

/-- Termination measure of the driver loop: unconsumed bytes plus the
remaining vertical slack (in integer units) before the loop must exit. -/
def layoutMeasure (l : TextLayout) (u : List Char) (cursor : Point) : Nat :=
  byteLen u + (bottom_y l + l.style.text_font.line_height - cursor.y).toNat

theorem layoutLoop_terminates (l : TextLayout)
    (hlh : 0 < l.style.text_font.line_height) (totalLen : Nat)
    (init_cursor : Point) :
    ∀ (n : Nat) (u : List Char) (cursor : Point),
      layoutMeasure l u cursor < n →
      ∃ r, layoutLoop l totalLen init_cursor n u cursor = some r := by
  intro n
  induction n with
  | zero => intro u cursor h; exact absurd h (Nat.not_lt_zero _)
  | succ n ih =>
    intro u cursor hm
    cases u with
    | nil => exact ⟨_, layoutLoop_nil l totalLen init_cursor (n + 1) cursor⟩
    | cons c rest =>
      rw [layoutLoop_succ]
      have hne : (c :: rest : List Char) ≠ [] := by simp
      have hb1 := (fit_horizontally_boundary (c :: rest) (l.bounds.x1 - cursor.x)
        l.style.text_font l.style.line_breaking (lineEndingSpace l cursor)).1
      have hb2 := (fit_horizontally_boundary (c :: rest) (l.bounds.x1 - cursor.x)
        l.style.text_font l.style.line_breaking (lineEndingSpace l cursor)).2
      rw [show fit_horizontally (c :: rest) (l.bounds.x1 - cursor.x)
          l.style.text_font l.style.line_breaking (lineEndingSpace l cursor) =
          iterSpan l cursor (c :: rest) from rfl] at hb1 hb2
      obtain ⟨-, hlen, hle⟩ := byte_split hb1 hb2
      simp only [layoutIter]
      by_cases hadv : 0 < (iterSpan l cursor (c :: rest)).advance.y
      · rw [if_pos hadv]
        by_cases hoob : bottom_y l < cursor.y + (iterSpan l cursor (c :: rest)).advance.y
        · rw [if_pos hoob]
          exact ⟨_, rfl⟩
        · rw [if_neg hoob]
          rcases Nat.eq_zero_or_pos ((iterSpan l cursor (c :: rest)).length +
              (iterSpan l cursor (c :: rest)).skip_next_chars) with hzero | hpos
          · have hsp := fit_horizontally_nil_consumption hne (l.bounds.x1 - cursor.x)
              l.style.text_font l.style.line_breaking (lineEndingSpace l cursor) hzero
            rw [show fit_horizontally (c :: rest) (l.bounds.x1 - cursor.x)
                l.style.text_font l.style.line_breaking (lineEndingSpace l cursor) =
                iterSpan l cursor (c :: rest) from rfl] at hsp
            have hy : (iterSpan l cursor (c :: rest)).advance.y =
                l.style.text_font.line_height := by rw [hsp]; rfl
            have hdz : byteDrop ((iterSpan l cursor (c :: rest)).length +
                (iterSpan l cursor (c :: rest)).skip_next_chars) (c :: rest) =
                c :: rest := by rw [hzero]; exact byteDrop_zero _
            have hm' : layoutMeasure l
                (byteDrop ((iterSpan l cursor (c :: rest)).length +
                  (iterSpan l cursor (c :: rest)).skip_next_chars) (c :: rest))
                ({ x := l.bounds.x0
                   y := cursor.y + (iterSpan l cursor (c :: rest)).advance.y } : Point) < n := by
              rw [hdz]
              unfold layoutMeasure at hm ⊢
              rw [hy] at hoob ⊢
              simp only
              omega
            obtain ⟨r0, hr0⟩ := ih _ _ hm'
            rw [hr0]
            exact ⟨_, rfl⟩
          · have hm' : layoutMeasure l
                (byteDrop ((iterSpan l cursor (c :: rest)).length +
                  (iterSpan l cursor (c :: rest)).skip_next_chars) (c :: rest))
                ({ x := l.bounds.x0
                   y := cursor.y + (iterSpan l cursor (c :: rest)).advance.y } : Point) < n := by
              unfold layoutMeasure at hm ⊢
              rw [hlen]
              simp only
              omega
            obtain ⟨r0, hr0⟩ := ih _ _ hm'
            rw [hr0]
            exact ⟨_, rfl⟩
      · rw [if_neg hadv]
        have hpos : 0 < (iterSpan l cursor (c :: rest)).length +
            (iterSpan l cursor (c :: rest)).skip_next_chars := by
          rcases Nat.eq_zero_or_pos ((iterSpan l cursor (c :: rest)).length +
              (iterSpan l cursor (c :: rest)).skip_next_chars) with hzero | hpos
          · have hsp := fit_horizontally_nil_consumption hne (l.bounds.x1 - cursor.x)
              l.style.text_font l.style.line_breaking (lineEndingSpace l cursor) hzero
            rw [show fit_horizontally (c :: rest) (l.bounds.x1 - cursor.x)
                l.style.text_font l.style.line_breaking (lineEndingSpace l cursor) =
                iterSpan l cursor (c :: rest) from rfl] at hsp
            have hy : (iterSpan l cursor (c :: rest)).advance.y =
                l.style.text_font.line_height := by rw [hsp]; rfl
            rw [hy] at hadv
            exact absurd hlh hadv
          · exact hpos
        have hm' : layoutMeasure l
            (byteDrop ((iterSpan l cursor (c :: rest)).length +
              (iterSpan l cursor (c :: rest)).skip_next_chars) (c :: rest))
            ({ x := cursor.x + alignShift l.align (l.bounds.x1 - cursor.x)
                  (iterSpan l cursor (c :: rest)).advance.x +
                  (iterSpan l cursor (c :: rest)).advance.x
               y := cursor.y } : Point) < n := by
          unfold layoutMeasure at hm ⊢
          rw [hlen]
          simp only
          omega
        obtain ⟨r0, hr0⟩ := ih _ _ hm'
        rw [hr0]
        exact ⟨_, rfl⟩

/-- Claim C9: for positive line height, the driver terminates on every
finite input: some fuel bound suffices for the loop to return. -/
theorem claim_C9_termination (l : TextLayout)
    (hlh : 0 < l.style.text_font.line_height) (text : List Char)
    (cursor : Point) (prevPageWidth : Int) (continues : Bool) :
    ∃ fuel r, layout_text l text cursor prevPageWidth continues fuel = some r := by
  by_cases hpre : bottom_y l < cursor.y
  · refine ⟨0, { fit := LayoutFit.OutOfBounds 0 0, endCursor := cursor
                 events := [Event.outOfBounds], pieces := [], remaining := text
                 lastHyphen := false }, ?_⟩
    simp only [layout_text]
    rw [if_pos hpre]
  · refine ⟨layoutMeasure l text
      (if continues then { x := cursor.x + prevPageWidth, y := cursor.y } else cursor) + 1,
      ?_⟩
    simp only [layout_text]
    rw [if_neg hpre]
    obtain ⟨r0, hr0⟩ := layoutLoop_terminates l hlh (byteLen text) cursor
      (layoutMeasure l text
        (if continues then { x := cursor.x + prevPageWidth, y := cursor.y } else cursor) + 1)
      text
      (if continues then { x := cursor.x + prevPageWidth, y := cursor.y } else cursor)
      (Nat.lt_succ_self _)
    rw [hr0]
    exact ⟨_, rfl⟩

/-- Claim C9 witness: a concrete terminating pass. -/
theorem claim_C9_witness :
    0 < fixedFont.line_height ∧
    ∃ fuel r, layout_text (mkLayout 5 3 LineBreaking.BreakAtWhitespace
      PageBreaking.CutAndInsertEllipsis Alignment.Start)
      ['h', 'e', 'l', 'l', 'o', ' ', 'w', 'o', 'r', 'l', 'd']
      { x := 0, y := 1 } 2 false fuel = some r :=
  ⟨by decide, claim_C9_termination _ (by decide) _ _ _ _⟩

theorem tdiv_two_pos {n : Int} (h : 2 ≤ n) : 0 < Int.tdiv n 2 := by
  rcases n with m | m
  · show 0 < Int.ofNat (m / 2)
    rw [Int.ofNat_eq_natCast] at h ⊢
    omega
  · exact absurd h (by
      have := Int.negSucc_lt_zero m
      omega)

/-- Two layouts that agree on everything except the block alignment and the
style's line alignment. -/
def SameLayoutExceptAlign (l1 l2 : TextLayout) : Prop :=
  l1.bounds = l2.bounds ∧ l1.padding_top = l2.padding_top ∧
  l1.padding_bottom = l2.padding_bottom ∧
  l1.style.text_font = l2.style.text_font ∧
  l1.style.line_breaking = l2.style.line_breaking ∧
  l1.style.page_breaking = l2.style.page_breaking

theorem bottom_y_congr {l1 l2 : TextLayout} (h : SameLayoutExceptAlign l1 l2) :
    bottom_y l2 = bottom_y l1 := by
  obtain ⟨hb, -, hpb, -, -, -⟩ := h
  unfold bottom_y
  rw [hb, hpb]

theorem lineEndingSpace_congr {l1 l2 : TextLayout}
    (h : SameLayoutExceptAlign l1 l2) (cursor : Point) :
    lineEndingSpace l2 cursor = lineEndingSpace l1 cursor := by
  obtain ⟨hb, -, hpb, hf, -, -⟩ := h
  unfold lineEndingSpace bottom_y
  rw [hb, hpb, hf]

theorem iterSpan_congr {l1 l2 : TextLayout} (h : SameLayoutExceptAlign l1 l2)
    (cursor : Point) (u : List Char) :
    iterSpan l2 cursor u = iterSpan l1 cursor u := by
  have hles := lineEndingSpace_congr h cursor
  obtain ⟨hb, -, -, hf, hlb, -⟩ := h
  unfold iterSpan
  rw [hb, hf, hlb, hles]

theorem layout_height_congr {l1 l2 : TextLayout}
    (h : SameLayoutExceptAlign l1 l2) (a b : Point) :
    layout_height l2 a b = layout_height l1 a b := by
  obtain ⟨-, hpt, hpb, hf, -, -⟩ := h
  unfold layout_height
  rw [hpt, hpb, hf]

theorem layout_height_eq_of_y (l : TextLayout) (ic : Point) {p q : Point}
    (h : p.y = q.y) : layout_height l ic p = layout_height l ic q := by
  unfold layout_height
  rw [h]

/-- The returned `LayoutFit` of the driver loop does not depend on the block
alignment or the line alignment, provided the line height is at least 2. -/
theorem layoutLoop_align_congr (l1 l2 : TextLayout)
    (hsame : SameLayoutExceptAlign l1 l2)
    (hlh2 : 2 ≤ l1.style.text_font.line_height) (totalLen : Nat) (ic : Point) :
    ∀ (f1 f2 : Nat) (u : List Char) (cursor : Point) (r1 r2 : LoopResult),
      layoutLoop l1 totalLen ic f1 u cursor = some r1 →
      layoutLoop l2 totalLen ic f2 u cursor = some r2 →
      r1.fit = r2.fit := by
  intro f1
  induction f1 with
  | zero =>
    intro f2 u cursor r1 r2 h1 h2
    cases u with
    | nil =>
      rw [layoutLoop_nil] at h1 h2
      simp only [Option.some.injEq] at h1 h2
      subst h1
      subst h2
      simp only [layout_height_congr hsame]
    | cons c rest => cases h1
  | succ f1 ih =>
    intro f2 u cursor r1 r2 h1 h2
    cases u with
    | nil =>
      rw [layoutLoop_nil] at h1 h2
      simp only [Option.some.injEq] at h1 h2
      subst h1
      subst h2
      simp only [layout_height_congr hsame]
    | cons c rest =>
      cases f2 with
      | zero => cases h2
      | succ f2 =>
        rw [layoutLoop_succ] at h1 h2
        simp only [layoutIter] at h1 h2
        rw [iterSpan_congr hsame, bottom_y_congr hsame, ← hsame.1] at h2
        simp only [layout_height_congr hsame] at h2
        rw [← hsame.2.2.2.2.2] at h2
        by_cases hadv : 0 < (iterSpan l1 cursor (c :: rest)).advance.y
        · rw [if_pos hadv] at h1 h2
          by_cases hoob : bottom_y l1 < cursor.y +
              (iterSpan l1 cursor (c :: rest)).advance.y
          · rw [if_pos hoob] at h1 h2
            simp only [Option.some.injEq] at h1 h2
            subst h1
            subst h2
            simp only
            rw [layout_height_eq_of_y l1 ic (show
              (({ x := cursor.x + alignShift l1.align (l1.bounds.x1 - cursor.x)
                     (iterSpan l1 cursor (c :: rest)).advance.x +
                     (iterSpan l1 cursor (c :: rest)).advance.x
                  y := cursor.y } : Point)).y =
              (({ x := cursor.x + alignShift l2.align (l1.bounds.x1 - cursor.x)
                     (iterSpan l1 cursor (c :: rest)).advance.x +
                     (iterSpan l1 cursor (c :: rest)).advance.x
                  y := cursor.y } : Point)).y from rfl)]
          · rw [if_neg hoob] at h1 h2
            rcases hr1 : layoutLoop l1 totalLen ic f1
                (byteDrop ((iterSpan l1 cursor (c :: rest)).length +
                  (iterSpan l1 cursor (c :: rest)).skip_next_chars) (c :: rest))
                ({ x := l1.bounds.x0
                   y := cursor.y + (iterSpan l1 cursor (c :: rest)).advance.y } : Point)
                with r1' | r1'
            · rw [hr1] at h1; cases h1
            · rw [hr1] at h1
              rcases hr2 : layoutLoop l2 totalLen ic f2
                  (byteDrop ((iterSpan l1 cursor (c :: rest)).length +
                    (iterSpan l1 cursor (c :: rest)).skip_next_chars) (c :: rest))
                  ({ x := l1.bounds.x0
                     y := cursor.y + (iterSpan l1 cursor (c :: rest)).advance.y } : Point)
                  with r2' | r2'
              · rw [hr2] at h2; cases h2
              · rw [hr2] at h2
                simp only [Option.some.injEq] at h1 h2
                subst h1
                subst h2
                simpa using ih f2 _ _ r1' r2' hr1 hr2
        · rw [if_neg hadv] at h1 h2
          rcases fit_horizontally_advance_y (c :: rest) (l1.bounds.x1 - cursor.x)
              l1.style.text_font l1.style.line_breaking (lineEndingSpace l1 cursor)
              with hy | hy | hy
          · rw [show fit_horizontally (c :: rest) (l1.bounds.x1 - cursor.x)
                l1.style.text_font l1.style.line_breaking (lineEndingSpace l1 cursor) =
                iterSpan l1 cursor (c :: rest) from rfl] at hy
            rw [hy] at hadv
            omega
          · rw [show fit_horizontally (c :: rest) (l1.bounds.x1 - cursor.x)
                l1.style.text_font l1.style.line_breaking (lineEndingSpace l1 cursor) =
                iterSpan l1 cursor (c :: rest) from rfl] at hy
            have := tdiv_two_pos hlh2
            rw [hy.1] at hadv
            omega
          · rw [show fit_horizontally (c :: rest) (l1.bounds.x1 - cursor.x)
                l1.style.text_font l1.style.line_breaking (lineEndingSpace l1 cursor) =
                iterSpan l1 cursor (c :: rest) from rfl] at hy
            obtain ⟨hyl, hys, -⟩ := hy
            rw [hyl, hys, Nat.add_zero, byteDrop_byteLen] at h1 h2
            rw [layoutLoop_nil] at h1 h2
            simp only [Option.some.injEq] at h1 h2
            subst h1
            subst h2
            simp only
            rw [layout_height_congr hsame]
            rw [layout_height_eq_of_y l1 ic (show
              (({ x := cursor.x + alignShift l1.align (l1.bounds.x1 - cursor.x)
                     (iterSpan l1 cursor (c :: rest)).advance.x +
                     (iterSpan l1 cursor (c :: rest)).advance.x
                  y := cursor.y } : Point)).y =
              (({ x := cursor.x + alignShift l2.align (l1.bounds.x1 - cursor.x)
                     (iterSpan l1 cursor (c :: rest)).advance.x +
                     (iterSpan l1 cursor (c :: rest)).advance.x
                  y := cursor.y } : Point)).y from rfl)]

/-- Claim C10, counterexample to the claim as stated: two layouts identical
except in `align` (fixed-width font with line height 1, a carriage return in
the text) return different `LayoutFit` values — the CR break advances by
`1 / 2 = 0` rows, so the alignment shift leaks into the next span's width
budget. -/
theorem claim_C10_counterexample :
    Option.map LoopResult.fit
      (fit_text (mkLayout 5 1 LineBreaking.BreakAtWhitespace
        PageBreaking.CutAndInsertEllipsis Alignment.Start)
        ['a', '\r', 'b', 'b', 'b', 'b', 'b'] false 20) =
      some (LayoutFit.OutOfBounds 4 1) ∧
    Option.map LoopResult.fit
      (fit_text (mkLayout 5 1 LineBreaking.BreakAtWhitespace
        PageBreaking.CutAndInsertEllipsis Alignment.End)
        ['a', '\r', 'b', 'b', 'b', 'b', 'b'] false 20) =
      some (LayoutFit.OutOfBounds 2 1) ∧
    SameLayoutExceptAlign
      (mkLayout 5 1 LineBreaking.BreakAtWhitespace
        PageBreaking.CutAndInsertEllipsis Alignment.Start)
      (mkLayout 5 1 LineBreaking.BreakAtWhitespace
        PageBreaking.CutAndInsertEllipsis Alignment.End) := by
  refine ⟨by decide, by decide, rfl, rfl, rfl, rfl, rfl, rfl⟩

/-- Claim C10, amended: for layouts identical except in the block alignment
`align` and the style's `line_alignment`, and a font whose line height is at
least 2, `layout_text` returns the same `LayoutFit` (same `processed_chars`
and `height`). -/
theorem claim_C10_amended (l1 l2 : TextLayout)
    (hsame : SameLayoutExceptAlign l1 l2)
    (hlh2 : 2 ≤ l1.style.text_font.line_height) (text : List Char)
    (cursor : Point) (prevPageWidth : Int) (continues : Bool) (f1 f2 : Nat)
    (r1 r2 : LoopResult)
    (h1 : layout_text l1 text cursor prevPageWidth continues f1 = some r1)
    (h2 : layout_text l2 text cursor prevPageWidth continues f2 = some r2) :
    r1.fit = r2.fit := by
  simp only [layout_text] at h1 h2
  rw [bottom_y_congr hsame] at h2
  by_cases hpre : bottom_y l1 < cursor.y
  · rw [if_pos hpre] at h1 h2
    simp only [Option.some.injEq] at h1 h2
    subst h1
    subst h2
    rfl
  · rw [if_neg hpre] at h1 h2
    rcases hr1 : layoutLoop l1 (byteLen text) cursor f1 text
        (if continues then { x := cursor.x + prevPageWidth, y := cursor.y } else cursor)
        with r1' | r1'
    · rw [hr1] at h1; cases h1
    · rw [hr1] at h1
      rcases hr2 : layoutLoop l2 (byteLen text) cursor f2 text
          (if continues then { x := cursor.x + prevPageWidth, y := cursor.y } else cursor)
          with r2' | r2'
      · rw [hr2] at h2; cases h2
      · rw [hr2] at h2
        simp only [Option.some.injEq] at h1 h2
        subst h1
        subst h2
        simpa using layoutLoop_align_congr l1 l2 hsame hlh2 (byteLen text) cursor
          f1 f2 text _ r1' r2' hr1 hr2

/-- Claim C10 witness: a line-height-2 font, two alignments, equal fits. -/
theorem claim_C10_witness :
    2 ≤ fixedFont2.line_height ∧
    ({ fit := LayoutFit.Fitting 2 1, endCursor := { x := 2, y := 1 }
       events := [Event.text { x := 0, y := 1 } ['a', 'b']]
       pieces := [(['a', 'b'], ([] : List Char))], remaining := []
       lastHyphen := false } : LoopResult).fit =
    ({ fit := LayoutFit.Fitting 2 1, endCursor := { x := 5, y := 1 }
       events := [Event.text { x := 3, y := 1 } ['a', 'b']]
       pieces := [(['a', 'b'], ([] : List Char))], remaining := []
       lastHyphen := false } : LoopResult).fit :=
  ⟨by decide,
   claim_C10_amended (mkLayout2 5 10 Alignment.Start) (mkLayout2 5 10 Alignment.End)
     ⟨rfl, rfl, rfl, rfl, rfl, rfl⟩ (by decide) ['a', 'b']
     (initial_cursor (mkLayout2 5 10 Alignment.Start))
     (prev_page_ellipsis_width fixedFont2) false 5 5 _ _ (by decide) (by decide)⟩

/-!  Lemmas towards height monotonicity (claim C8). -/

/-- Once the whitespace budget fails (and widths are nonnegative, so it
keeps failing), the scan can never take a whitespace break: an early return
carries the stored candidate's vertical advance, and a completed scan either
scanned nothing or stayed within the width budget. -/
theorem fitLoop_fail (p : FitParams) (hnn : ∀ c, 0 ≤ p.font.char_width c) :
    ∀ (cs : List Char) (st : FitState),
      p.max_width < st.width + p.cwe →
      (∀ sp, fitLoop p cs st = Sum.inl sp → sp.advance.y = st.line.advance.y) ∧
      (∀ st', fitLoop p cs st = Sum.inr st' → st' = st ∨ st'.width ≤ p.max_width) := by
  intro cs
  induction cs with
  | nil =>
    intro st hfail
    constructor
    · intro sp h; exact absurd h (by simp [fitLoop])
    · intro st' h
      simp only [fitLoop, Sum.inr.injEq] at h
      exact Or.inl h.symm
  | cons c cs ih =>
    intro st hfail
    have hcnn : 0 ≤ p.font.char_width c := hnn c
    have h1 : ¬ (is_whitespace c = true ∧ st.width + p.cwe ≤ p.max_width) := by
      rintro ⟨-, hb⟩; omega
    by_cases h3 : p.max_width < st.width + p.font.char_width c
    · constructor
      · intro sp h
        rw [fitLoop_cons_over p c cs st h1 h3] at h
        simp only [Sum.inl.injEq] at h
        rw [← h]
      · intro st' h
        rw [fitLoop_cons_over p c cs st h1 h3] at h
        exact absurd h (by simp)
    · have hfail' : p.max_width <
          st.width + p.font.char_width c + p.cwe := by omega
      have ihs := ih
        { i := st.i + Char.utf8Size c
          width := st.width + p.font.char_width c
          found_any_whitespace := st.found_any_whitespace
          line :=
            if st.width + p.font.char_width c + p.iwe ≤ p.max_width ∧
                (¬ p.breaking = LineBreaking.BreakAtWhitespace ∨
                  st.found_any_whitespace = false) then
              { length := st.i + Char.utf8Size c, skip_next_chars := 0
                advance := { x := st.width + p.font.char_width c, y := st.line.advance.y }
                insert_hyphen_before_line_break := p.use_hyphens }
            else st.line }
        (by dsimp only; omega)
      constructor
      · intro sp h
        rw [fitLoop_cons_go p c cs st h1 h3] at h
        have := ihs.1 sp h
        rw [this]
        split_ifs <;> rfl
      · intro st' h
        rw [fitLoop_cons_go p c cs st h1 h3] at h
        rcases ihs.2 st' h with heq | hle
        · right
          rw [heq]
          dsimp only
          omega
        · right; exact hle

/-- Synchronized comparison of two scans over the same characters under the
same font and width budget, where the first scan has a zero
complete-word-end width (the fits-completely parameterization) and the
second an arbitrary one.  As long as the total width of the scanned
characters fits the budget, either both return the same span, or the first
scan completes, or the second scan diverges after its whitespace budget
fails, in which case its outcome carries the full line height. -/
theorem fitLoop_sync (font : GlyphMetrics) (maxW : Int) (br1 br2 : LineBreaking)
    (cwe2 iwe1 iwe2 : Int) (uh1 uh2 : Bool)
    (hnn : ∀ c, 0 ≤ font.char_width c) :
    ∀ (cs : List Char) (st1 st2 : FitState),
      st1.i = st2.i → st1.width = st2.width →
      st1.line.advance.y = font.line_height →
      st2.line.advance.y = font.line_height →
      st1.width + text_width font cs ≤ maxW →
      (∃ sp, fitLoop ⟨font, maxW, br1, 0, iwe1, uh1⟩ cs st1 = Sum.inl sp ∧
             fitLoop ⟨font, maxW, br2, cwe2, iwe2, uh2⟩ cs st2 = Sum.inl sp) ∨
      (∃ t1, fitLoop ⟨font, maxW, br1, 0, iwe1, uh1⟩ cs st1 = Sum.inr t1) ∨
      (∃ sp2, fitLoop ⟨font, maxW, br2, cwe2, iwe2, uh2⟩ cs st2 = Sum.inl sp2 ∧
              sp2.advance.y = font.line_height ∧ 0 < cwe2) ∨
      (∃ t2, fitLoop ⟨font, maxW, br2, cwe2, iwe2, uh2⟩ cs st2 = Sum.inr t2 ∧
             maxW < t2.width + cwe2 ∧ t2.line.advance.y = font.line_height ∧
             0 < cwe2) := by
  intro cs
  induction cs with
  | nil =>
    intro st1 st2 hi hw hy1 hy2 hbound
    exact Or.inr (Or.inl ⟨st1, rfl⟩)
  | cons c cs ih =>
    intro st1 st2 hi hw hy1 hy2 hbound
    have hcnn := hnn c
    have htwnn : 0 ≤ text_width font cs := text_width_nonneg font hnn cs
    rw [text_width_cons] at hbound
    have hnov1 : ¬ (⟨font, maxW, br1, 0, iwe1, uh1⟩ : FitParams).max_width <
        st1.width + (⟨font, maxW, br1, 0, iwe1, uh1⟩ : FitParams).font.char_width c := by
      dsimp only; omega
    have hnov2 : ¬ (⟨font, maxW, br2, cwe2, iwe2, uh2⟩ : FitParams).max_width <
        st2.width + (⟨font, maxW, br2, cwe2, iwe2, uh2⟩ : FitParams).font.char_width c := by
      dsimp only; omega
    by_cases hws : is_whitespace c = true
    · have hb1 : is_whitespace c = true ∧
          st1.width + (⟨font, maxW, br1, 0, iwe1, uh1⟩ : FitParams).cwe ≤
          (⟨font, maxW, br1, 0, iwe1, uh1⟩ : FitParams).max_width := by
        refine ⟨hws, ?_⟩; dsimp only; omega
      by_cases hbud2 : st2.width + cwe2 ≤ maxW
      · have hb2 : is_whitespace c = true ∧
            st2.width + (⟨font, maxW, br2, cwe2, iwe2, uh2⟩ : FitParams).cwe ≤
            (⟨font, maxW, br2, cwe2, iwe2, uh2⟩ : FitParams).max_width := ⟨hws, hbud2⟩
        by_cases hlfcr : c = '\n' ∨ c = '\r'
        · left
          refine ⟨_, fitLoop_cons_ws_ret _ c cs st1 hb1 hlfcr, ?_⟩
          rw [fitLoop_cons_ws_ret _ c cs st2 hb2 hlfcr]
          rw [hi, hw, hy1, hy2]
        · rw [fitLoop_cons_ws_go _ c cs st1 hb1 hlfcr,
            fitLoop_cons_ws_go _ c cs st2 hb2 hlfcr]
          exact ih _ _ (by dsimp only; rw [hi]) (by dsimp only; rw [hw])
            (by dsimp only; exact hy1) (by dsimp only; exact hy2)
            (by dsimp only; omega)
      · have hstw : st1.width ≤ maxW := by omega
        have hcwe2 : 0 < cwe2 := by omega
        have h1not : ¬ (is_whitespace c = true ∧
            st2.width + (⟨font, maxW, br2, cwe2, iwe2, uh2⟩ : FitParams).cwe ≤
            (⟨font, maxW, br2, cwe2, iwe2, uh2⟩ : FitParams).max_width) := by
          rintro ⟨-, hb⟩
          exact hbud2 hb
        have hfail2 : (⟨font, maxW, br2, cwe2, iwe2, uh2⟩ : FitParams).max_width <
            (goState (⟨font, maxW, br2, cwe2, iwe2, uh2⟩ : FitParams) c st2).width +
            (⟨font, maxW, br2, cwe2, iwe2, uh2⟩ : FitParams).cwe := by
          simp only [goState]
          omega
        have hLf := fitLoop_fail (⟨font, maxW, br2, cwe2, iwe2, uh2⟩ : FitParams)
          hnn cs (goState (⟨font, maxW, br2, cwe2, iwe2, uh2⟩ : FitParams) c st2)
          hfail2
        have hgy : (goState (⟨font, maxW, br2, cwe2, iwe2, uh2⟩ : FitParams) c
            st2).line.advance.y = font.line_height := by
          simp only [goState]
          split_ifs <;> exact hy2
        rcases hres : fitLoop (⟨font, maxW, br2, cwe2, iwe2, uh2⟩ : FitParams) cs
            (goState (⟨font, maxW, br2, cwe2, iwe2, uh2⟩ : FitParams) c st2)
            with sp | t2
        · right; right; left
          refine ⟨sp, ?_, ?_, hcwe2⟩
          · rw [fitLoop_cons_goS _ c cs st2 h1not hnov2]
            exact hres
          · have := hLf.1 sp hres
            rw [this]
            exact hgy
        · right; right; right
          refine ⟨t2, ?_, ?_, ?_, hcwe2⟩
          · rw [fitLoop_cons_goS _ c cs st2 h1not hnov2]
            exact hres
          · obtain ⟨-, hw2, -⟩ := fitLoop_inr _ cs _ t2 hres
            rw [hw2]
            simp only [goState]
            omega
          · obtain ⟨-, -, hyt⟩ := fitLoop_inr _ cs _ t2 hres
            rw [hyt]
            exact hgy
    · have h1not1 : ¬ (is_whitespace c = true ∧
          st1.width + (⟨font, maxW, br1, 0, iwe1, uh1⟩ : FitParams).cwe ≤
          (⟨font, maxW, br1, 0, iwe1, uh1⟩ : FitParams).max_width) :=
        fun h => hws h.1
      have h1not2 : ¬ (is_whitespace c = true ∧
          st2.width + (⟨font, maxW, br2, cwe2, iwe2, uh2⟩ : FitParams).cwe ≤
          (⟨font, maxW, br2, cwe2, iwe2, uh2⟩ : FitParams).max_width) :=
        fun h => hws h.1
      rw [fitLoop_cons_go _ c cs st1 h1not1 hnov1,
        fitLoop_cons_go _ c cs st2 h1not2 hnov2]
      exact ih _ _ (by dsimp only; rw [hi]) (by dsimp only; rw [hw])
        (by dsimp only; split_ifs <;> exact hy1)
        (by dsimp only; split_ifs <;> exact hy2)
        (by dsimp only; omega)

theorem mkFitParams_pos (text : List Char) (max_width : Int)
    (font : GlyphMetrics) (breaking : LineBreaking) (les : Option Int)
    (h : text_width font text ≤ max_width) :
    mkFitParams text max_width font breaking les =
      ⟨font, max_width, breaking, 0, 0, false⟩ := by
  simp only [mkFitParams]
  rw [if_pos h, if_pos h]

theorem mkFitParams_neg_congr (t1 t2 : List Char) (max_width : Int)
    (font : GlyphMetrics) (breaking : LineBreaking) (les : Option Int)
    (h1 : ¬ text_width font t1 ≤ max_width)
    (h2 : ¬ text_width font t2 ≤ max_width) :
    mkFitParams t1 max_width font breaking les =
      mkFitParams t2 max_width font breaking les := by
  simp only [mkFitParams]
  rw [if_neg h1, if_neg h1, if_neg h2, if_neg h2]

theorem mkFitParams_neg_shape (t : List Char) (max_width : Int)
    (font : GlyphMetrics) (breaking : LineBreaking) (les : Option Int)
    (h : ¬ text_width font t ≤ max_width) :
    ∃ iwe2 uh2, mkFitParams t max_width font breaking les =
      ⟨font, max_width, breaking, les.getD 0, iwe2, uh2⟩ := by
  simp only [mkFitParams]
  rw [if_neg h, if_neg h]
  exact ⟨_, _, rfl⟩

/-- Extending the text can only change the fitted span in controlled ways:
either the span is unchanged, or the scan of the shorter text ran to
completion (the whole-text span, with no line break), or a reserved
line-ending width is present and the extended text's span breaks with the
full line height. -/
theorem fit_extend (u s : List Char) (maxW : Int) (font : GlyphMetrics)
    (br : LineBreaking) (les : Option Int)
    (hnn : ∀ c, 0 ≤ font.char_width c) :
    fit_horizontally (u ++ s) maxW font br les =
        fit_horizontally u maxW font br les ∨
    ((fit_horizontally u maxW font br les).length = byteLen u ∧
     (fit_horizontally u maxW font br les).skip_next_chars = 0 ∧
     (fit_horizontally u maxW font br les).advance.y = 0) ∨
    (∃ e, les = some e ∧
      (fit_horizontally (u ++ s) maxW font br les).advance.y =
        font.line_height) := by
  by_cases hfus : text_width font (u ++ s) ≤ maxW
  · have hfu : text_width font u ≤ maxW := by
      rw [text_width_append] at hfus
      have := text_width_nonneg font hnn s
      omega
    have hpeq : mkFitParams (u ++ s) maxW font br les =
        mkFitParams u maxW font br les := by
      rw [mkFitParams_pos _ _ _ _ _ hfus, mkFitParams_pos _ _ _ _ _ hfu]
    rcases hfl : fitLoop (mkFitParams u maxW font br les) u (initFitState font)
        with sp | st'
    · left
      unfold fit_horizontally
      rw [hpeq, fitLoop_append, hfl]
    · right; left
      unfold fit_horizontally
      rw [hfl]
      obtain ⟨hi', -, -⟩ := fitLoop_inr _ u _ _ hfl
      dsimp only
      rw [hi']
      exact ⟨by simp [initFitState], rfl, rfl⟩
  · by_cases hfu : text_width font u ≤ maxW
    · have hP1 : mkFitParams u maxW font br les =
          ⟨font, maxW, br, 0, 0, false⟩ := mkFitParams_pos _ _ _ _ _ hfu
      obtain ⟨iwe2, uh2, hP2⟩ := mkFitParams_neg_shape (u ++ s) maxW font br les hfus
      have hsync := fitLoop_sync font maxW br br (les.getD 0) 0 iwe2 false uh2 hnn
        u (initFitState font) (initFitState font) rfl rfl rfl rfl
        (by simpa [initFitState] using hfu)
      rcases hsync with ⟨sp, hl1, hl2⟩ | ⟨t1, hr1⟩ | ⟨sp2, hl2, hy2, hc2⟩ |
        ⟨t2, hr2, hfail, hyt2, hc2⟩
      · left
        unfold fit_horizontally
        rw [hP1, hP2, fitLoop_append, hl2, hl1]
      · right; left
        unfold fit_horizontally
        rw [hP1, hr1]
        obtain ⟨hi', -, -⟩ := fitLoop_inr _ u _ _ hr1
        dsimp only
        rw [hi']
        exact ⟨by simp [initFitState], rfl, rfl⟩
      · right; right
        obtain ⟨e, hles⟩ : ∃ e, les = some e := by
          cases les with
          | none => simp at hc2
          | some e => exact ⟨e, rfl⟩
        refine ⟨e, hles, ?_⟩
        unfold fit_horizontally
        rw [hP2, fitLoop_append, hl2]
        dsimp only
        exact hy2
      · have hLf := fitLoop_fail ⟨font, maxW, br, les.getD 0, iwe2, uh2⟩ hnn s t2 hfail
        rcases hres : fitLoop (⟨font, maxW, br, les.getD 0, iwe2, uh2⟩ : FitParams)
            s t2 with sp | stF
        · right; right
          obtain ⟨e, hles⟩ : ∃ e, les = some e := by
            cases les with
            | none => simp at hc2
            | some e => exact ⟨e, rfl⟩
          refine ⟨e, hles, ?_⟩
          unfold fit_horizontally
          rw [hP2, fitLoop_append, hr2]
          dsimp only
          rw [hres]
          dsimp only
          rw [hLf.1 sp hres]
          exact hyt2
        · exfalso
          obtain ⟨-, hwt2, -⟩ := fitLoop_inr _ u _ _ hr2
          obtain ⟨-, hwF, -⟩ := fitLoop_inr _ s _ _ hres
          dsimp only at hwt2 hwF
          simp only [initFitState] at hwt2
          rw [text_width_append] at hfus
          rcases hLf.2 stF hres with heq | hle
          · rw [heq] at hwF
            omega
          · rw [hwF, hwt2] at hle
            dsimp only at hle
            omega
    · have hpeq := mkFitParams_neg_congr (u ++ s) u maxW font br les hfus hfu
      rcases hfl : fitLoop (mkFitParams u maxW font br les) u (initFitState font)
          with sp | st'
      · left
        unfold fit_horizontally
        rw [hpeq, fitLoop_append, hfl]
      · right; left
        unfold fit_horizontally
        rw [hfl]
        obtain ⟨hi', -, -⟩ := fitLoop_inr _ u _ _ hfl
        dsimp only
        rw [hi']
        exact ⟨by simp [initFitState], rfl, rfl⟩

theorem byteDrop_append_boundary {u : List Char} {k : Nat}
    (h : IsBoundary u k) (s : List Char) :
    byteDrop k (u ++ s) = byteDrop k u ++ s := by
  obtain ⟨a, b, rfl, hk⟩ := isBoundary_exists_split h
  subst hk
  rw [List.append_assoc, byteDrop_append, byteDrop_append]

theorem layoutIter_y_mono (l : TextLayout) (totalLen : Nat)
    (init_cursor : Point) (recur : List Char → Point → Option LoopResult)
    (hrec : ∀ u' c' r', recur u' c' = some r' → c'.y ≤ r'.endCursor.y)
    (u : List Char) (cursor : Point) (r : LoopResult)
    (h : layoutIter l totalLen init_cursor recur u cursor = some r) :
    cursor.y ≤ r.endCursor.y := by
  simp only [layoutIter] at h
  by_cases hadv : 0 < (iterSpan l cursor u).advance.y
  · rw [if_pos hadv] at h
    by_cases hoob : bottom_y l < cursor.y + (iterSpan l cursor u).advance.y
    · rw [if_pos hoob] at h
      simp only [Option.some.injEq] at h
      subst h
      exact le_refl _
    · rw [if_neg hoob] at h
      rcases hr : recur (byteDrop ((iterSpan l cursor u).length +
          (iterSpan l cursor u).skip_next_chars) u)
          ({ x := l.bounds.x0
             y := cursor.y + (iterSpan l cursor u).advance.y } : Point) with r' | r'
      · rw [hr] at h; cases h
      · rw [hr] at h
        simp only [Option.some.injEq] at h
        subst h
        have := hrec _ _ _ hr
        simp only at this ⊢
        omega
  · rw [if_neg hadv] at h
    rcases hr : recur (byteDrop ((iterSpan l cursor u).length +
        (iterSpan l cursor u).skip_next_chars) u)
        ({ x := cursor.x + alignShift l.align (l.bounds.x1 - cursor.x)
              (iterSpan l cursor u).advance.x + (iterSpan l cursor u).advance.x
           y := cursor.y } : Point) with r' | r'
    · rw [hr] at h; cases h
    · rw [hr] at h
      simp only [Option.some.injEq] at h
      subst h
      have := hrec _ _ _ hr
      simpa using this

theorem layoutLoop_y_mono (l : TextLayout) (totalLen : Nat)
    (init_cursor : Point) :
    ∀ (fuel : Nat) (u : List Char) (cursor : Point) (r : LoopResult),
      layoutLoop l totalLen init_cursor fuel u cursor = some r →
      cursor.y ≤ r.endCursor.y := by
  intro fuel
  induction fuel with
  | zero =>
    intro u cursor r h
    cases u with
    | nil =>
      rw [layoutLoop_nil] at h
      simp only [Option.some.injEq] at h
      subst h
      exact le_refl _
    | cons c rest => cases h
  | succ fuel ih =>
    intro u cursor r h
    cases u with
    | nil =>
      rw [layoutLoop_nil] at h
      simp only [Option.some.injEq] at h
      subst h
      exact le_refl _
    | cons c rest =>
      rw [layoutLoop_succ] at h
      exact layoutIter_y_mono l totalLen init_cursor _
        (fun u' c' r' h' => ih u' c' r' h') (c :: rest) cursor r h

theorem layoutIter_height (l : TextLayout) (totalLen : Nat)
    (init_cursor : Point) (recur : List Char → Point → Option LoopResult)
    (hrec : ∀ u' c' r', recur u' c' = some r' →
      r'.fit.height = layout_height l init_cursor r'.endCursor)
    (u : List Char) (cursor : Point) (r : LoopResult)
    (h : layoutIter l totalLen init_cursor recur u cursor = some r) :
    r.fit.height = layout_height l init_cursor r.endCursor := by
  simp only [layoutIter] at h
  by_cases hadv : 0 < (iterSpan l cursor u).advance.y
  · rw [if_pos hadv] at h
    by_cases hoob : bottom_y l < cursor.y + (iterSpan l cursor u).advance.y
    · rw [if_pos hoob] at h
      simp only [Option.some.injEq] at h
      subst h
      rfl
    · rw [if_neg hoob] at h
      rcases hr : recur (byteDrop ((iterSpan l cursor u).length +
          (iterSpan l cursor u).skip_next_chars) u)
          ({ x := l.bounds.x0
             y := cursor.y + (iterSpan l cursor u).advance.y } : Point) with r' | r'
      · rw [hr] at h; cases h
      · rw [hr] at h
        simp only [Option.some.injEq] at h
        subst h
        have := hrec _ _ _ hr
        simpa using this
  · rw [if_neg hadv] at h
    rcases hr : recur (byteDrop ((iterSpan l cursor u).length +
        (iterSpan l cursor u).skip_next_chars) u)
        ({ x := cursor.x + alignShift l.align (l.bounds.x1 - cursor.x)
              (iterSpan l cursor u).advance.x + (iterSpan l cursor u).advance.x
           y := cursor.y } : Point) with r' | r'
    · rw [hr] at h; cases h
    · rw [hr] at h
      simp only [Option.some.injEq] at h
      subst h
      have := hrec _ _ _ hr
      simpa using this

theorem layoutLoop_height (l : TextLayout) (totalLen : Nat)
    (init_cursor : Point) :
    ∀ (fuel : Nat) (u : List Char) (cursor : Point) (r : LoopResult),
      layoutLoop l totalLen init_cursor fuel u cursor = some r →
      r.fit.height = layout_height l init_cursor r.endCursor := by
  intro fuel
  induction fuel with
  | zero =>
    intro u cursor r h
    cases u with
    | nil =>
      rw [layoutLoop_nil] at h
      simp only [Option.some.injEq] at h
      subst h
      rfl
    | cons c rest => cases h
  | succ fuel ih =>
    intro u cursor r h
    cases u with
    | nil =>
      rw [layoutLoop_nil] at h
      simp only [Option.some.injEq] at h
      subst h
      rfl
    | cons c rest =>
      rw [layoutLoop_succ] at h
      exact layoutIter_height l totalLen init_cursor _
        (fun u' c' r' h' => ih u' c' r' h') (c :: rest) cursor r h

/-- Simulation: a pass over `u` and a pass over `u ++ s` from the same
cursor proceed through identical spans while `u` lasts; if both passes fit,
the longer pass ends at least as low as the shorter one. -/
theorem layoutLoop_sim (l : TextLayout)
    (hnn : ∀ c, 0 ≤ l.style.text_font.char_width c)
    (tl1 tl2 : Nat) (ic : Point) (s : List Char) :
    ∀ (f1 f2 : Nat) (u : List Char) (cursor : Point) (r1 r2 : LoopResult),
      cursor.y ≤ bottom_y l →
      layoutLoop l tl1 ic f1 u cursor = some r1 →
      (∃ p h, r1.fit = LayoutFit.Fitting p h) →
      layoutLoop l tl2 ic f2 (u ++ s) cursor = some r2 →
      (∃ p h, r2.fit = LayoutFit.Fitting p h) →
      r1.endCursor.y ≤ r2.endCursor.y := by
  intro f1
  induction f1 with
  | zero =>
    intro f2 u cursor r1 r2 hcb h1 hfit1 h2 hfit2
    cases u with
    | nil =>
      rw [layoutLoop_nil] at h1
      simp only [Option.some.injEq] at h1
      subst h1
      simp only [List.nil_append] at h2
      have := layoutLoop_y_mono l tl2 ic f2 s cursor r2 h2
      simpa using this
    | cons c rest => cases h1
  | succ f1 ih =>
    intro f2 u cursor r1 r2 hcb h1 hfit1 h2 hfit2
    cases u with
    | nil =>
      rw [layoutLoop_nil] at h1
      simp only [Option.some.injEq] at h1
      subst h1
      simp only [List.nil_append] at h2
      have := layoutLoop_y_mono l tl2 ic f2 s cursor r2 h2
      simpa using this
    | cons c rest =>
      cases f2 with
      | zero =>
        rw [show (c :: rest) ++ s = c :: (rest ++ s) from rfl] at h2
        cases h2
      | succ f2 =>
        rw [show (c :: rest) ++ s = c :: (rest ++ s) from rfl] at h2
        rw [layoutLoop_succ] at h1 h2
        have hext := fit_extend (c :: rest) s (l.bounds.x1 - cursor.x)
          l.style.text_font l.style.line_breaking (lineEndingSpace l cursor) hnn
        rw [show fit_horizontally (c :: rest) (l.bounds.x1 - cursor.x)
            l.style.text_font l.style.line_breaking (lineEndingSpace l cursor) =
            iterSpan l cursor (c :: rest) from rfl] at hext
        rw [show (c :: rest) ++ s = c :: (rest ++ s) from rfl] at hext
        rw [show fit_horizontally (c :: (rest ++ s)) (l.bounds.x1 - cursor.x)
            l.style.text_font l.style.line_breaking (lineEndingSpace l cursor) =
            iterSpan l cursor (c :: (rest ++ s)) from rfl] at hext
        rcases hext with heq | ⟨hlen, hskip, hy0⟩ | ⟨e, hles, hylh⟩
        · simp only [layoutIter] at h1 h2
          rw [heq] at h2
          have hb2 := (fit_horizontally_boundary (c :: rest)
            (l.bounds.x1 - cursor.x) l.style.text_font l.style.line_breaking
            (lineEndingSpace l cursor)).2
          rw [show fit_horizontally (c :: rest) (l.bounds.x1 - cursor.x)
              l.style.text_font l.style.line_breaking (lineEndingSpace l cursor) =
              iterSpan l cursor (c :: rest) from rfl] at hb2
          have hdrop : byteDrop ((iterSpan l cursor (c :: rest)).length +
              (iterSpan l cursor (c :: rest)).skip_next_chars) (c :: (rest ++ s)) =
              byteDrop ((iterSpan l cursor (c :: rest)).length +
                (iterSpan l cursor (c :: rest)).skip_next_chars) (c :: rest) ++ s := by
            rw [show (c :: (rest ++ s) : List Char) = (c :: rest) ++ s from rfl]
            exact byteDrop_append_boundary hb2 s
          rw [hdrop] at h2
          by_cases hadv : 0 < (iterSpan l cursor (c :: rest)).advance.y
          · rw [if_pos hadv] at h1 h2
            by_cases hoob : bottom_y l <
                cursor.y + (iterSpan l cursor (c :: rest)).advance.y
            · rw [if_pos hoob] at h1
              simp only [Option.some.injEq] at h1
              obtain ⟨p, hh, hfit⟩ := hfit1
              rw [← h1] at hfit
              simp at hfit
            · rw [if_neg hoob] at h1 h2
              rcases hr1 : layoutLoop l tl1 ic f1
                  (byteDrop ((iterSpan l cursor (c :: rest)).length +
                    (iterSpan l cursor (c :: rest)).skip_next_chars) (c :: rest))
                  ({ x := l.bounds.x0
                     y := cursor.y + (iterSpan l cursor (c :: rest)).advance.y } : Point)
                  with r1' | r1'
              · rw [hr1] at h1; cases h1
              · rw [hr1] at h1
                rcases hr2 : layoutLoop l tl2 ic f2
                    (byteDrop ((iterSpan l cursor (c :: rest)).length +
                      (iterSpan l cursor (c :: rest)).skip_next_chars) (c :: rest) ++ s)
                    ({ x := l.bounds.x0
                       y := cursor.y + (iterSpan l cursor (c :: rest)).advance.y } : Point)
                    with r2' | r2'
                · rw [hr2] at h2; cases h2
                · rw [hr2] at h2
                  simp only [Option.some.injEq] at h1 h2
                  subst h1
                  subst h2
                  simp only at hfit1 hfit2 ⊢
                  exact ih f2 _ _ r1' r2' (by simp only; omega) hr1 hfit1 hr2 hfit2
          · rw [if_neg hadv] at h1 h2
            rcases hr1 : layoutLoop l tl1 ic f1
                (byteDrop ((iterSpan l cursor (c :: rest)).length +
                  (iterSpan l cursor (c :: rest)).skip_next_chars) (c :: rest))
                ({ x := cursor.x + alignShift l.align (l.bounds.x1 - cursor.x)
                      (iterSpan l cursor (c :: rest)).advance.x +
                      (iterSpan l cursor (c :: rest)).advance.x
                   y := cursor.y } : Point) with r1' | r1'
            · rw [hr1] at h1; cases h1
            · rw [hr1] at h1
              rcases hr2 : layoutLoop l tl2 ic f2
                  (byteDrop ((iterSpan l cursor (c :: rest)).length +
                    (iterSpan l cursor (c :: rest)).skip_next_chars) (c :: rest) ++ s)
                  ({ x := cursor.x + alignShift l.align (l.bounds.x1 - cursor.x)
                        (iterSpan l cursor (c :: rest)).advance.x +
                        (iterSpan l cursor (c :: rest)).advance.x
                     y := cursor.y } : Point) with r2' | r2'
              · rw [hr2] at h2; cases h2
              · rw [hr2] at h2
                simp only [Option.some.injEq] at h1 h2
                subst h1
                subst h2
                simp only at hfit1 hfit2 ⊢
                exact ih f2 _
                  ({ x := cursor.x + alignShift l.align (l.bounds.x1 - cursor.x)
                        (iterSpan l cursor (c :: rest)).advance.x +
                        (iterSpan l cursor (c :: rest)).advance.x
                     y := cursor.y } : Point) r1' r2' hcb hr1 hfit1 hr2 hfit2
        · have hadv : ¬ 0 < (iterSpan l cursor (c :: rest)).advance.y := by
            rw [hy0]; omega
          simp only [layoutIter] at h1
          rw [if_neg hadv] at h1
          rw [hlen, hskip, Nat.add_zero, byteDrop_byteLen] at h1
          rw [layoutLoop_nil] at h1
          simp only [Option.some.injEq] at h1
          subst h1
          have := layoutIter_y_mono l tl2 ic _
            (fun u' c' r' h' => layoutLoop_y_mono l tl2 ic f2 u' c' r' h')
            (c :: (rest ++ s)) cursor r2 h2
          simpa using this
        · have hlast : bottom_y l < cursor.y + l.style.text_font.line_height := by
            unfold lineEndingSpace at hles
            by_cases hc : bottom_y l < cursor.y + l.style.text_font.line_height
            · exact hc
            · rw [if_neg hc] at hles; cases hles
          have hadv2 : 0 < (iterSpan l cursor (c :: (rest ++ s))).advance.y := by
            rw [hylh]; omega
          simp only [layoutIter] at h2
          rw [if_pos hadv2] at h2
          have hoob2 : bottom_y l <
              cursor.y + (iterSpan l cursor (c :: (rest ++ s))).advance.y := by
            rw [hylh]; exact hlast
          rw [if_pos hoob2] at h2
          simp only [Option.some.injEq] at h2
          obtain ⟨p, hh, hfit⟩ := hfit2
          rw [← h2] at hfit
          simp at hfit

/-- Claim C8: for a fixed style, bounds, paddings, and initial cursor, with
nonnegative glyph widths, if `fit_text` on `t` returns `Fitting` with height
`ht1` and `fit_text` on `t ++ s` returns `Fitting` with height `ht2`, then
`ht1 ≤ ht2`. -/
theorem claim_C8_height_monotone (l : TextLayout)
    (hnn : ∀ c, 0 ≤ l.style.text_font.char_width c)
    (t s : List Char) (continues : Bool) (f1 f2 : Nat) (r1 r2 : LoopResult)
    (h1 : fit_text l t continues f1 = some r1)
    (h2 : fit_text l (t ++ s) continues f2 = some r2)
    (p1 p2 : Nat) (ht1 ht2 : Int)
    (hf1 : r1.fit = LayoutFit.Fitting p1 ht1)
    (hf2 : r2.fit = LayoutFit.Fitting p2 ht2) :
    ht1 ≤ ht2 := by
  simp only [fit_text, layout_text] at h1 h2
  by_cases hpre : bottom_y l < (initial_cursor l).y
  · rw [if_pos hpre] at h1
    simp only [Option.some.injEq] at h1
    rw [← h1] at hf1
    simp at hf1
  · rw [if_neg hpre] at h1 h2
    rcases hr1 : layoutLoop l (byteLen t) (initial_cursor l) f1 t
        (if continues then
          ({ x := (initial_cursor l).x + prev_page_ellipsis_width l.style.text_font
             y := (initial_cursor l).y } : Point)
        else initial_cursor l) with r1' | r1'
    · rw [hr1] at h1; cases h1
    · rw [hr1] at h1
      rcases hr2 : layoutLoop l (byteLen (t ++ s)) (initial_cursor l) f2 (t ++ s)
          (if continues then
            ({ x := (initial_cursor l).x + prev_page_ellipsis_width l.style.text_font
               y := (initial_cursor l).y } : Point)
          else initial_cursor l) with r2' | r2'
      · rw [hr2] at h2; cases h2
      · rw [hr2] at h2
        simp only [Option.some.injEq] at h1 h2
        subst h1
        subst h2
        simp only at hf1 hf2
        have hh1 := layoutLoop_height l (byteLen t) (initial_cursor l) f1 t _ r1' hr1
        have hh2 := layoutLoop_height l (byteLen (t ++ s)) (initial_cursor l) f2
          (t ++ s) _ r2' hr2
        rw [hf1] at hh1
        rw [hf2] at hh2
        simp only [LayoutFit.height] at hh1 hh2
        have hCy : (if continues then
            ({ x := (initial_cursor l).x + prev_page_ellipsis_width l.style.text_font
               y := (initial_cursor l).y } : Point)
            else initial_cursor l).y = (initial_cursor l).y := by
          by_cases hc : continues <;> simp [hc]
        have hsim := layoutLoop_sim l hnn (byteLen t) (byteLen (t ++ s))
          (initial_cursor l) s f1 f2 t _ r1' r2' (by rw [hCy]; omega) hr1
          ⟨p1, ht1, hf1⟩ hr2 ⟨p2, ht2, hf2⟩
        rw [hh1, hh2]
        unfold layout_height
        omega

/-- Claim C8 witness: appending text to a fitting one-line pass yields a
fitting two-line pass of larger height. -/
theorem claim_C8_witness : (1 : Int) ≤ 2 :=
  claim_C8_height_monotone
    (mkLayout 5 3 LineBreaking.BreakAtWhitespace
      PageBreaking.CutAndInsertEllipsis Alignment.Start)
    (fun _ => zero_le_one) ['a', 'b'] [' ', 'c', 'd', 'd'] false 9 9
    { fit := LayoutFit.Fitting 2 1, endCursor := { x := 2, y := 1 }
      events := [Event.text { x := 0, y := 1 } ['a', 'b']]
      pieces := [(['a', 'b'], [])], remaining := [], lastHyphen := false }
    { fit := LayoutFit.Fitting 6 2, endCursor := { x := 3, y := 2 }
      events := [Event.text { x := 0, y := 1 } ['a', 'b'],
                 Event.lineBreak { x := 0, y := 2 },
                 Event.text { x := 0, y := 2 } ['c', 'd', 'd']]
      pieces := [(['a', 'b'], [' ']), (['c', 'd', 'd'], [])]
      remaining := [], lastHyphen := false }
    (by decide) (by decide) 2 6 1 2 (by decide) (by decide)

end Layout
